import Mathlib

/-!
Ark: configuration validation, redemption planner, RPC helpers and fee client

A shallow embedding of

* `server/internal/app-config/config.go` (`Config.Validate`),
* `client/covenantless/redeem_branch.go` (`offchainPath`, `redeemPath`,
  `expireAt`, `findSweepClosure`),
* `server/internal/interface/grpc/handlers/utils.go` (`parseReceivers`,
  `toRoundStage`),
* `server/internal/infrastructure/wallet/btc-embedded/esplora.go`
  (`esploraClient.getFeeRate`),

followed by the properties established about them.

Conventions.  Go `int64`/`uint64` values are `Int`/`Nat`; the arithmetic of
`Validate` (`x - x % 512` on `x ≥ 512`, and comparisons) cannot leave the
machine range on the inputs it is reached with, and the `int64` seconds of
`time.Unix` and `Time.Add` wrap and saturate as in Go.  Go's `%` truncates
toward zero and is `Int.tmod`.  Go `len(s)` of a string is its byte length,
`String.utf8ByteSize`.  A Go function returning `(T, error)` returns `Except`;
functions of other packages (database, wallet, PSBT library, explorer) are
fields of a record of externals the embedded function is parameterised by.
-/

deriving instance DecidableEq for Except

namespace Ark

/-! ## `app-config`: `Config.Validate` -/

namespace AppConfig

/-- Constant `minAllowedSequence = 512`. -/
def minAllowedSequence : Int := 512

/-- Keys of the `supportedDbs` map. -/
def supportedDbs : List String := ["badger"]

/-- Keys of the `supportedSchedulers` map. -/
def supportedSchedulers : List String := ["gocron"]

/-- Keys of the `supportedTxBuilders` map. -/
def supportedTxBuilders : List String := ["covenant", "covenantless"]

/-- Keys of the `supportedScanners` map. -/
def supportedScanners : List String := ["ocean", "btcwallet"]

/-- Method `supportedType.supports`: the key is present in the map. -/
def supports (t : List String) (typeStr : String) : Bool :=
  t.contains typeStr

/-- The part of `common.Network` that `Validate` reads. -/
structure Network where
  Name : String
deriving DecidableEq, Repr

/-- The exported fields of `Config`.  The unexported service handles (`repo`,
`svc`, `adminSvc`, `wallet`, `txBuilder`, `scanner`, `scheduler`) are only
written by `Validate`, never read by the code modelled here, and are left out. -/
structure Config where
  DbType : String
  DbDir : String
  RoundInterval : Int
  Network : Network
  SchedulerType : String
  TxBuilderType : String
  BlockchainScannerType : String
  WalletAddr : String
  MinRelayFee : Nat
  RoundLifetime : Int
  UnilateralExitDelay : Int
  EsploraURL : String
  NeutrinoPeer : String
deriving DecidableEq, Repr

/-- The errors `Validate` returns, one constructor per `fmt.Errorf` site;
`external` carries an error handed back by another package and
`walletConnect` the wrapped "failed to connect to wallet" error. -/
inductive ValidateError where
  | dbTypeNotSupported
  | schedulerTypeNotSupported
  | txBuilderTypeNotSupported
  | scannerTypeNotSupported
  | invalidRoundInterval
  | invalidNetwork
  | missingWalletAddr
  | invalidMinRelayFee
  | invalidRoundLifetime
  | invalidUnilateralExitDelay
  | unknownDbType
  | missingEsploraUrl
  | unknownTxBuilderType
  | unknownSchedulerType
  | walletConnect (inner : ValidateError)
  | external (msg : String)
deriving DecidableEq, Repr

/-- Constructors of other packages called while wiring the services; each
returns the error it reports, `none` for `nil`. -/
structure Externals where
  isLiquid : Network → Bool
  dbNewService : Config → Option String
  liquidNewService : String → Option String
  btcNewService : Config → Option String
  newCovenantService : Config → Option String
  newCovenantlessService : Config → Option String

/-- Lines 65-88 of `Validate`: the checks on the service types, the round
interval, the network, the wallet address and the relay fee, in order. -/
def checkSettings (c : Config) : Option ValidateError :=
  if !supports supportedDbs c.DbType then some .dbTypeNotSupported
  else if !supports supportedSchedulers c.SchedulerType then some .schedulerTypeNotSupported
  else if !supports supportedTxBuilders c.TxBuilderType then some .txBuilderTypeNotSupported
  else if !supports supportedScanners c.BlockchainScannerType then some .scannerTypeNotSupported
  else if c.RoundInterval < 2 then some .invalidRoundInterval
  else if c.Network.Name ≠ "liquid" ∧ c.Network.Name ≠ "testnet" ∧ c.Network.Name ≠ "regtest" then
    some .invalidNetwork
  else if c.WalletAddr.utf8ByteSize ≤ 0 then some .missingWalletAddr
  else if c.MinRelayFee < 30 then some .invalidMinRelayFee
  else none

/-- Lines 102-116 of `Validate`: both delays are rounded down to a multiple of
`minAllowedSequence` when they are not one already. -/
def roundDelays (c : Config) : Config :=
  let c1 : Config :=
    if c.RoundLifetime.tmod minAllowedSequence ≠ 0 then
      { c with RoundLifetime := c.RoundLifetime - c.RoundLifetime.tmod minAllowedSequence }
    else c
  if c1.UnilateralExitDelay.tmod minAllowedSequence ≠ 0 then
    { c1 with
      UnilateralExitDelay := c1.UnilateralExitDelay - c1.UnilateralExitDelay.tmod minAllowedSequence }
  else c1

/-- Method `Config.repoManager`. -/
def repoManager (ext : Externals) (c : Config) : Option ValidateError :=
  if c.DbType = "badger" then (ext.dbNewService c).map ValidateError.external
  else some .unknownDbType

/-- Method `Config.walletService`. -/
def walletService (ext : Externals) (c : Config) : Option ValidateError :=
  if ext.isLiquid c.Network then (ext.liquidNewService c.WalletAddr).map ValidateError.external
  else if c.EsploraURL.utf8ByteSize = 0 then some .missingEsploraUrl
  else (ext.btcNewService c).map ValidateError.external

/-- Method `Config.txBuilderService`. -/
def txBuilderService (c : Config) : Option ValidateError :=
  if c.TxBuilderType = "covenant" then none
  else if c.TxBuilderType = "covenantless" then none
  else some .unknownTxBuilderType

/-- Method `Config.scannerService`: every scanner type takes the wallet. -/
def scannerService (_c : Config) : Option ValidateError := none

/-- Method `Config.schedulerService`. -/
def schedulerService (c : Config) : Option ValidateError :=
  if c.SchedulerType = "gocron" then none else some .unknownSchedulerType

/-- Method `Config.appService`. -/
def appService (ext : Externals) (c : Config) : Option ValidateError :=
  if ext.isLiquid c.Network then (ext.newCovenantService c).map ValidateError.external
  else (ext.newCovenantlessService c).map ValidateError.external

/-- Method `Config.adminService`. -/
def adminService (_c : Config) : Option ValidateError := none

/-- Lines 118-139 of `Validate`: the services are built in order and the first
error is returned. -/
def wireServices (ext : Externals) (c : Config) : Option ValidateError :=
  match repoManager ext c with
  | some e => some e
  | none =>
    match walletService ext c with
    | some e => some (.walletConnect e)
    | none =>
      match txBuilderService c with
      | some e => some e
      | none =>
        match scannerService c with
        | some e => some e
        | none =>
          match schedulerService c with
          | some e => some e
          | none =>
            match appService ext c with
            | some e => some e
            | none => adminService c

/-- Method `Config.Validate`.  The receiver is a pointer: the result is the
configuration as the call leaves it together with the returned error. -/
def Validate (ext : Externals) (c : Config) : Config × Option ValidateError :=
  match checkSettings c with
  | some e => (c, some e)
  | none =>
    if c.RoundLifetime < minAllowedSequence then (c, some .invalidRoundLifetime)
    else if c.UnilateralExitDelay < minAllowedSequence then (c, some .invalidUnilateralExitDelay)
    else
      let c2 := roundDelays c
      (c2, wireServices ext c2)

/-- A configuration that passes every check, with delays still to be rounded. -/
def sampleConfig : Config :=
  { DbType := "badger", DbDir := "/data/db", RoundInterval := 5,
    Network := { Name := "regtest" }, SchedulerType := "gocron",
    TxBuilderType := "covenantless", BlockchainScannerType := "btcwallet",
    WalletAddr := "localhost:18000", MinRelayFee := 30,
    RoundLifetime := 604700, UnilateralExitDelay := 1024,
    EsploraURL := "http://localhost:3000", NeutrinoPeer := "" }

/-- Externals whose constructors all succeed on a Bitcoin network. -/
def sampleExternals : Externals :=
  { isLiquid := fun n => n.Name == "liquid",
    dbNewService := fun _ => none,
    liquidNewService := fun _ => none,
    btcNewService := fun _ => none,
    newCovenantService := fun _ => none,
    newCovenantlessService := fun _ => none }

/-- The sample configuration with a round lifetime below the minimum. -/
def shortLifetimeConfig : Config :=
  { sampleConfig with RoundLifetime := 100 }

end AppConfig

/-! ## Byte strings and `encoding/hex` -/

/-- A Go `[]byte`; the `nil` slice and the empty slice are both `[]`. -/
abbrev Bytes := List UInt8

/-- The table `hextable` of `encoding/hex`. -/
def hextable : List Char :=
  ['0', '1', '2', '3', '4', '5', '6', '7', '8', '9', 'a', 'b', 'c', 'd', 'e', 'f']

/-- One byte as its two lower-case hexadecimal digits, high nibble first. -/
def hexByte (b : UInt8) : List Char :=
  [hextable.getD (b.toNat / 16) '0', hextable.getD (b.toNat % 16) '0']

/-- Function `hex.EncodeToString`. -/
def EncodeToString (src : Bytes) : String :=
  String.mk (src.flatMap hexByte)

/-! ## `client/covenantless`: the redeem branch -/

namespace Covenantless

/-- What the functions of this package return instead of a value: one of the
two errors built in the package, an error handed back by a callee, or the
run-time panic of indexing `Inputs[0]` on a transaction without inputs. -/
inductive Failure where
  | missingKeySpendSig
  | sweepClosureNotFound
  | external (msg : String)
  | indexOutOfRange
deriving DecidableEq, Repr

/-- A `wire.MsgTx`, kept as an uninterpreted serialization. -/
structure MsgTx where
  raw : Bytes
deriving DecidableEq, Repr

/-- A `psbt.TaprootTapLeafScript`. -/
structure TaprootTapLeafScript where
  ControlBlock : Bytes
  Script : Bytes
  LeafVersion : Nat
deriving DecidableEq, Repr

/-- The fields of `psbt.PInput` read or written by this package. -/
structure PInput where
  TaprootKeySpendSig : Bytes
  TaprootLeafScript : List TaprootTapLeafScript
  FinalScriptWitness : Bytes
deriving DecidableEq, Repr

/-- The fields of `psbt.Packet` read or written by this package. -/
structure Packet where
  UnsignedTx : MsgTx
  Inputs : List PInput
deriving DecidableEq, Repr

/-- A `txscript.TapLeaf`. -/
structure TapLeaf where
  LeafVersion : Nat
  Script : Bytes
deriving DecidableEq, Repr

/-- Constant `txscript.BaseLeafVersion`. -/
def BaseLeafVersion : Nat := 0xc0

/-- Function `txscript.NewBaseTapLeaf`. -/
def NewBaseTapLeaf (script : Bytes) : TapLeaf :=
  { LeafVersion := BaseLeafVersion, Script := script }

/-- A `tree.Node`. -/
structure Node where
  Txid : String
  Tx : String
  ParentTxid : String
  Leaf : Bool
deriving DecidableEq, Repr

/-- A `tree.CongestionTree`: the nodes level by level. -/
abbrev CongestionTree := List (List Node)

/-- The field of `bitcointree.CSVSigClosure` read by this package. -/
structure CSVSigClosure where
  Seconds : Nat
deriving DecidableEq, Repr

/-- What `closure.Decode(script)` leaves behind when called on a fresh
closure: the closure as written by the call, and the returned pair. -/
structure DecodeResult where
  closure : CSVSigClosure
  valid : Bool
  err : Option String
deriving DecidableEq, Repr

/-- Functions of other packages called by the redeem branch: the PSBT and
wire libraries, and the `tree` and `bitcointree` packages. -/
structure Lib where
  TxHash : MsgTx → String
  NewFromRawBytes : String → Except String Packet
  WriteTxWitness : List Bytes → Except String Bytes
  Extract : Packet → Except String MsgTx
  Serialize : MsgTx → Except String Bytes
  Root : CongestionTree → Except String Node
  Decode : Bytes → DecodeResult

/-- The methods of the interface `utils.Explorer` called by the redeem branch,
with every returned value kept: `GetTxHex` returns `(hex, err)` and
`GetTxBlocktime` returns `(confirmed, blocktime, err)`. -/
structure Explorer where
  GetTxHex : String → String × Option String
  GetTxBlocktime : String → Bool × Int × Option String

/-- The fields of the client `vtxo` read by the redeem branch. -/
structure vtxo where
  txid : String
  poolTxid : String
deriving DecidableEq, Repr

/-- Struct `redeemBranch`.  `lifetime` is a `time.Duration`, in nanoseconds. -/
structure redeemBranch where
  vtxo : vtxo
  branch : List Packet
  lifetime : Int
  explorer : Explorer

/-- The loop of `offchainPath`, entered with `n = i + 1` for the index `i` to
visit next and the value `offchainPath` holds so far. -/
def offchainPathLoop (lib : Lib) (r : redeemBranch) :
    Nat → List Packet → Except Failure (List Packet)
  | 0, offchainPath => .ok offchainPath
  | i + 1, offchainPath =>
    match r.branch[i]? with
    | none => .error .indexOutOfRange
    | some ptx =>
      let txHash := lib.TxHash ptx.UnsignedTx
      match (r.explorer.GetTxHex txHash).2 with
      | some _ => offchainPathLoop lib r i offchainPath
      | none =>
        if i = r.branch.length - 1 then .ok []
        else .ok (r.branch.drop (i + 1))

/-- Method `redeemBranch.offchainPath`. -/
def offchainPath (lib : Lib) (r : redeemBranch) : Except Failure (List Packet) :=
  offchainPathLoop lib r r.branch.length r.branch

/-- The loop of `redeemPath` over the off-chain packets, `transactions` being
the hexes appended so far.  The write to `ptx.Inputs[0].FinalScriptWitness`
is visible to `psbt.Extract`; the packet of the branch it also changes is
not read again by this call. -/
def redeemPathLoop (lib : Lib) : List Packet → List String → Except Failure (List String)
  | [], transactions => .ok transactions
  | ptx :: rest, transactions =>
    match ptx.Inputs with
    | [] => .error .indexOutOfRange
    | firstInput :: others =>
      if firstInput.TaprootKeySpendSig.length = 0 then .error .missingKeySpendSig
      else
        match lib.WriteTxWitness [firstInput.TaprootKeySpendSig] with
        | .error e => .error (.external e)
        | .ok witness =>
          let ptx1 : Packet :=
            { ptx with Inputs := { firstInput with FinalScriptWitness := witness } :: others }
          match lib.Extract ptx1 with
          | .error e => .error (.external e)
          | .ok extracted =>
            match lib.Serialize extracted with
            | .error e => .error (.external e)
            | .ok txBytes =>
              redeemPathLoop lib rest (transactions ++ [EncodeToString txBytes])

/-- Method `redeemBranch.redeemPath`. -/
def redeemPath (lib : Lib) (r : redeemBranch) : Except Failure (List String) :=
  match offchainPath lib r with
  | .error e => .error e
  | .ok path => redeemPathLoop lib path []

/-- An instant, as the integer count of nanoseconds since the Unix epoch;
`expireAt` returns the instant its `time.Time` denotes. -/
abbrev Time := Int

/-- Constant `time.Minute`. -/
def Minute : Int := 60 * 1000000000

/-- An integer reduced to the range of `int64`, as Go's wrapping arithmetic
leaves it. -/
def wrapInt64 (x : Int) : Int :=
  (x + 9223372036854775808) % 18446744073709551616 - 9223372036854775808

/-- Constant `unixToInternal` of package `time`: the seconds from January 1,
year 1 to the Unix epoch. -/
def unixToInternal : Int := 62135596800

/-- A `time.Time` without monotonic clock reading, as `time.Unix` makes it:
`ext` is the `int64` count of seconds since January 1, year 1 and `nsec` the
nanoseconds within the second kept in `wall`. -/
structure WallTime where
  ext : Int
  nsec : Int
deriving DecidableEq, Repr

/-- Function `time.Unix(sec, 0)`: the seconds are shifted to year 1 by an
`int64` addition, which wraps. -/
def Unix (sec : Int) : WallTime :=
  { ext := wrapInt64 (sec + unixToInternal), nsec := 0 }

/-- Method `(*Time).addSec` on a time without monotonic reading: the sum of
`ext` and `d` when it fits `int64`, else the largest or the smallest second. -/
def addSec (ext d : Int) : Int :=
  let sum := wrapInt64 (ext + d)
  if decide (sum > ext) = decide (d > 0) then sum
  else if d > 0 then 9223372036854775807
  else -9223372036854775807

/-- Method `Time.Add` on a time without monotonic reading; `d` is a
`time.Duration`, in nanoseconds, and `/` and `%` truncate toward zero. -/
def Add (t : WallTime) (d : Int) : WallTime :=
  let dsec := d.tdiv 1000000000
  let nsec := t.nsec + d.tmod 1000000000
  if nsec ≥ 1000000000 then { ext := addSec t.ext (dsec + 1), nsec := nsec - 1000000000 }
  else if nsec < 0 then { ext := addSec t.ext (dsec - 1), nsec := nsec + 1000000000 }
  else { ext := addSec t.ext dsec, nsec := nsec }

/-- The instant a `WallTime` denotes: `ext` seconds and `nsec` nanoseconds
after January 1, year 1. -/
def instantOf (t : WallTime) : Time :=
  (t.ext - unixToInternal) * 1000000000 + t.nsec

/-- The loop of `expireAt` over the branch, `lastKnownBlocktime` being the
value held on entry. -/
def expireAtLoop (lib : Lib) (explorer : Explorer) : List Packet → Int → Int
  | [], lastKnownBlocktime => lastKnownBlocktime
  | ptx :: rest, lastKnownBlocktime =>
    let txid := lib.TxHash ptx.UnsignedTx
    match explorer.GetTxBlocktime txid with
    | (confirmed, blocktime, err) =>
      if err.isSome then lastKnownBlocktime
      else if confirmed then expireAtLoop lib explorer rest blocktime
      else lastKnownBlocktime

/-- Method `redeemBranch.expireAt`, the value of `time.Now()` being `now`. -/
def expireAt (lib : Lib) (r : redeemBranch) (now : Time) : Except Failure Time :=
  match r.explorer.GetTxBlocktime r.vtxo.poolTxid with
  | (confirmed, blocktime, _) =>
    if confirmed then
      .ok (instantOf (Add (Unix (expireAtLoop lib r.explorer r.branch blocktime)) r.lifetime))
    else
      .ok (now + Minute + r.lifetime)

/-- The loop of `findSweepClosure` over the tap-leaves, with the values the
variables `seconds` and `sweepClosure` hold on entry. -/
def findSweepClosureLoop (lib : Lib) :
    List TaprootTapLeafScript → Nat → Option TapLeaf → Nat × Option TapLeaf
  | [], seconds, sweepClosure => (seconds, sweepClosure)
  | tapLeaf :: rest, seconds, sweepClosure =>
    let d := lib.Decode tapLeaf.Script
    if d.err.isSome then findSweepClosureLoop lib rest seconds sweepClosure
    else if d.valid && d.closure.Seconds > seconds then
      findSweepClosureLoop lib rest d.closure.Seconds (some (NewBaseTapLeaf tapLeaf.Script))
    else findSweepClosureLoop lib rest seconds sweepClosure

/-- Function `findSweepClosure`. -/
def findSweepClosure (lib : Lib) (congestionTree : CongestionTree) :
    Except Failure (TapLeaf × Nat) :=
  match lib.Root congestionTree with
  | .error e => .error (.external e)
  | .ok root =>
    match lib.NewFromRawBytes root.Tx with
    | .error e => .error (.external e)
    | .ok tx =>
      match tx.Inputs with
      | [] => .error .indexOutOfRange
      | input0 :: _ =>
        match findSweepClosureLoop lib input0.TaprootLeafScript 0 none with
        | (_, none) => .error .sweepClosureNotFound
        | (seconds, some sweepClosure) => .ok (sweepClosure, seconds)

/-! ### Vocabulary of the properties -/

/-- The explorer finds the transaction of the packet: `GetTxHex` on its txid
returns no error. -/
def onchain (lib : Lib) (explorer : Explorer) (ptx : Packet) : Prop :=
  (explorer.GetTxHex (lib.TxHash ptx.UnsignedTx)).2 = none

instance (lib : Lib) (explorer : Explorer) (ptx : Packet) :
    Decidable (onchain lib explorer ptx) := by
  unfold onchain; infer_instance

/-- Input 0 of the packet exists and carries no taproot key-spend signature. -/
def lacksKeySpendSig (ptx : Packet) : Prop :=
  ptx.Inputs.head?.map PInput.TaprootKeySpendSig = some []

instance (ptx : Packet) : Decidable (lacksKeySpendSig ptx) := by
  unfold lacksKeySpendSig; infer_instance

/-- The string `s` is the hex of the packet's transaction finalized with the
witness stack `[keySpendSig]`: input 0 carries a signature, the witness stack
holding only that signature is written to `FinalScriptWitness` of input 0, and
the packet so finalized is extracted and serialized to the bytes `s` encodes. -/
def Redeems (lib : Lib) (ptx : Packet) (s : String) : Prop :=
  ∃ (firstInput : PInput) (others : List PInput) (witness : Bytes) (extracted : MsgTx)
      (txBytes : Bytes),
    ptx.Inputs = firstInput :: others ∧
    firstInput.TaprootKeySpendSig ≠ [] ∧
    lib.WriteTxWitness [firstInput.TaprootKeySpendSig] = .ok witness ∧
    lib.Extract
      { ptx with Inputs := { firstInput with FinalScriptWitness := witness } :: others } =
        .ok extracted ∧
    lib.Serialize extracted = .ok txBytes ∧
    s = EncodeToString txBytes

/-- The explorer reports the transaction of the packet confirmed, with no
query error. -/
def confirmedOk (lib : Lib) (explorer : Explorer) (ptx : Packet) : Prop :=
  (explorer.GetTxBlocktime (lib.TxHash ptx.UnsignedTx)).1 = true ∧
  (explorer.GetTxBlocktime (lib.TxHash ptx.UnsignedTx)).2.2 = none

instance (lib : Lib) (explorer : Explorer) (ptx : Packet) :
    Decidable (confirmedOk lib explorer ptx) := by
  unfold confirmedOk; infer_instance

/-- The block time the explorer reports for the transaction of the packet. -/
def blocktimeOf (lib : Lib) (explorer : Explorer) (ptx : Packet) : Int :=
  (explorer.GetTxBlocktime (lib.TxHash ptx.UnsignedTx)).2.1

/-- The tap-leaf decodes as a valid CSV-signature closure: `Decode` on its
script returns no error and `valid = true`. -/
def validClosure (lib : Lib) (tapLeaf : TaprootTapLeafScript) : Prop :=
  (lib.Decode tapLeaf.Script).err = none ∧ (lib.Decode tapLeaf.Script).valid = true

instance (lib : Lib) (tapLeaf : TaprootTapLeafScript) :
    Decidable (validClosure lib tapLeaf) := by
  unfold validClosure; infer_instance

/-- The `Seconds` of the closure decoded from the tap-leaf. -/
def closureSeconds (lib : Lib) (tapLeaf : TaprootTapLeafScript) : Nat :=
  (lib.Decode tapLeaf.Script).closure.Seconds

/-! ### Sample data -/

/-- A packet with one input, named by the single byte of its transaction. -/
def packetOf (tag : UInt8) (sig : Bytes) : Packet :=
  { UnsignedTx := { raw := [tag] },
    Inputs := [{ TaprootKeySpendSig := sig, TaprootLeafScript := [], FinalScriptWitness := [] }] }

/-- A root packet whose input 0 carries the given tap-leaf scripts. -/
def rootPacketOf (scripts : List Bytes) : Packet :=
  { UnsignedTx := { raw := [0xa1] },
    Inputs := [{ TaprootKeySpendSig := [1], FinalScriptWitness := [],
                 TaprootLeafScript := scripts.map fun s =>
                   { ControlBlock := [], Script := s, LeafVersion := BaseLeafVersion } }] }

/-- A toy library: the txid is the hex of the raw transaction, a packet is
extracted when all its inputs are finalized, and a script `[n, 0xb2]` decodes
as a closure of `512 * n` seconds while the empty script is a decode error. -/
def sampleLib : Lib :=
  { TxHash := fun tx => EncodeToString tx.raw,
    NewFromRawBytes := fun s =>
      if s = "root" then .ok (rootPacketOf [[1, 0xb2], [], [3, 0xb2], [7], [3, 0xb2, 0], [2, 0xb2]])
      else if s = "zero" then .ok (rootPacketOf [[9], [0, 0xb2]])
      else .error "invalid psbt",
    WriteTxWitness := fun wit =>
      .ok (UInt8.ofNat wit.length :: wit.flatMap fun w => UInt8.ofNat w.length :: w),
    Extract := fun p =>
      if p.Inputs.all (fun i => i.FinalScriptWitness.length ≠ 0) then
        .ok { raw := p.UnsignedTx.raw ++ p.Inputs.flatMap fun i => i.FinalScriptWitness }
      else .error "incomplete psbt",
    Serialize := fun tx => .ok tx.raw,
    Root := fun t =>
      match t with
      | (n :: _) :: _ => .ok n
      | _ => .error "empty congestion tree",
    Decode := fun script =>
      match script with
      | [] => { closure := { Seconds := 0 }, valid := false, err := some "empty script" }
      | [n, 0xb2] => { closure := { Seconds := 512 * n.toNat }, valid := true, err := none }
      | _ => { closure := { Seconds := 0 }, valid := false, err := none } }

/-- An explorer that knows the pool transaction and the transactions `a1` and
`b2`, each confirmed, and nothing else. -/
def sampleExplorer : Explorer :=
  { GetTxHex := fun txid =>
      if txid = "a1" ∨ txid = "b2" then ("00", none) else ("", some "tx not found"),
    GetTxBlocktime := fun txid =>
      if txid = "pool" then (true, 1700000000, none)
      else if txid = "a1" then (true, 1700000600, none)
      else if txid = "b2" then (true, 1700001200, none)
      else (false, 0, none) }

/-- An explorer that knows no transaction at all. -/
def blindExplorer : Explorer :=
  { GetTxHex := fun _ => ("", some "tx not found"),
    GetTxBlocktime := fun _ => (false, 0, some "tx not found") }

/-- The branch `[A, B, C, D]` of signed packets, `A` and `B` being on-chain. -/
def sampleBranch : redeemBranch :=
  { vtxo := { txid := "d4", poolTxid := "pool" },
    branch := [packetOf 0xa1 [1], packetOf 0xb2 [2], packetOf 0xc3 [3], packetOf 0xd4 [4]],
    lifetime := 604672 * 1000000000,
    explorer := sampleExplorer }

/-- An explorer that reports every transaction confirmed at the largest
`int64` block time. -/
def farFutureExplorer : Explorer :=
  { GetTxHex := fun _ => ("00", none),
    GetTxBlocktime := fun _ => (true, 9223372036854775807, none) }

/-- A redeem branch without nodes whose pool transaction is confirmed at the
largest `int64` block time. -/
def farFutureBranch : redeemBranch :=
  { vtxo := { txid := "d4", poolTxid := "pool" },
    branch := [],
    lifetime := 604672 * 1000000000,
    explorer := farFutureExplorer }

/-- The same branch seen through an explorer that knows nothing. -/
def unseenBranch : redeemBranch :=
  { sampleBranch with explorer := blindExplorer }

/-- A branch whose on-chain root `A` carries no key-spend signature. -/
def unsignedRootBranch : redeemBranch :=
  { sampleBranch with branch := [packetOf 0xa1 [], packetOf 0xc3 [3]] }

/-- A branch whose off-chain leaf `D` carries no key-spend signature. -/
def unsignedLeafBranch : redeemBranch :=
  { sampleBranch with
    branch := [packetOf 0xa1 [1], packetOf 0xb2 [2], packetOf 0xc3 [3], packetOf 0xd4 []] }

/-- A one-node tree whose root parses to six tap-leaves. -/
def sampleTree : CongestionTree :=
  [[{ Txid := "a1", Tx := "root", ParentTxid := "pool", Leaf := true }]]

/-- A one-node tree whose only valid closure has zero seconds. -/
def zeroSecondsTree : CongestionTree :=
  [[{ Txid := "a1", Tx := "zero", ParentTxid := "pool", Leaf := true }]]

end Covenantless

/-! ## `interface/grpc/handlers`: `parseReceivers` -/

namespace Handlers

/-- The two errors built by `parseReceivers`. -/
inductive ParseError where
  | missingOutputAmount
  | missingOutputAddress
deriving DecidableEq, Repr

/-- Message `arkv1.Output`. -/
structure Output where
  Address : String
  Amount : Nat
deriving DecidableEq, Repr

/-- Getter `(*Output).GetAddress`: the empty string on a nil receiver. -/
def GetAddress (out : Option Output) : String :=
  match out with
  | none => ""
  | some o => o.Address

/-- Getter `(*Output).GetAmount`: zero on a nil receiver. -/
def GetAmount (out : Option Output) : Nat :=
  match out with
  | none => 0
  | some o => o.Amount

/-- Struct `domain.Receiver`. -/
structure Receiver where
  Pubkey : String
  Amount : Nat
  OnchainAddress : String
deriving DecidableEq, Repr

/-- A `secp256k1.PublicKey`: the affine coordinates as integers. -/
structure PublicKey where
  x : Nat
  y : Nat
deriving DecidableEq, Repr

/-- Method `PublicKey.SerializeCompressed` of the secp256k1 library: the
format byte `0x02` (even `y`) or `0x03` (odd `y`) followed by the 32 bytes of
`x`, most significant first. -/
def SerializeCompressed (pk : PublicKey) : Bytes :=
  (if pk.y % 2 = 1 then (3 : UInt8) else 2) ::
    (List.range 32).map fun i => UInt8.ofNat (pk.x / 256 ^ (31 - i) % 256)

/-- The four values returned by `common.DecodeAddress`; a nil key is `none`
and a nil error is `none`. -/
structure DecodedAddress where
  hrp : String
  userKey : Option PublicKey
  aspKey : Option PublicKey
  err : Option String
deriving DecidableEq, Repr

/-- The body of the loop of `parseReceivers` after the two checks: the
receiver built from an output. -/
def toReceiver (DecodeAddress : String → DecodedAddress) (out : Option Output) : Receiver :=
  let d := DecodeAddress (GetAddress out)
  let addr : String := if d.err.isSome then GetAddress out else ""
  let pubkey : String :=
    match d.userKey with
    | some pk => EncodeToString (SerializeCompressed pk)
    | none => ""
  { Pubkey := pubkey, Amount := GetAmount out, OnchainAddress := addr }

/-- The loop of `parseReceivers`, `receivers` being the slice built so far. -/
def parseReceiversLoop (DecodeAddress : String → DecodedAddress) :
    List (Option Output) → List Receiver → Except ParseError (List Receiver)
  | [], receivers => .ok receivers
  | out :: rest, receivers =>
    if GetAmount out = 0 then .error .missingOutputAmount
    else if (GetAddress out).utf8ByteSize ≤ 0 then .error .missingOutputAddress
    else parseReceiversLoop DecodeAddress rest (receivers ++ [toReceiver DecodeAddress out])

/-- Function `parseReceivers`; `common.DecodeAddress` is a parameter. -/
def parseReceivers (DecodeAddress : String → DecodedAddress) (outs : List (Option Output)) :
    Except ParseError (List Receiver) :=
  parseReceiversLoop DecodeAddress outs []

/-! ### Vocabulary of the properties and sample data -/

/-- The output passes both checks of `parseReceivers`: a non-zero amount and
a non-empty address. -/
def wellFormed (out : Option Output) : Prop :=
  GetAmount out ≠ 0 ∧ GetAddress out ≠ ""

instance (out : Option Output) : Decidable (wellFormed out) := by
  unfold wellFormed; infer_instance

/-- A toy `DecodeAddress` that decodes one address only. -/
def sampleDecodeAddress (addr : String) : DecodedAddress :=
  if addr = "tark1qsample" then
    { hrp := "tark", userKey := some { x := 258, y := 7 }, aspKey := some { x := 3, y := 4 },
      err := none }
  else { hrp := "", userKey := none, aspKey := none, err := some "invalid address" }

/-- One off-chain and one on-chain output. -/
def sampleOutputs : List (Option Output) :=
  [some { Address := "tark1qsample", Amount := 1000 },
   some { Address := "bcrt1qonchain", Amount := 2500 }]

/-- The receivers of `sampleOutputs`. -/
def sampleReceivers : List Receiver :=
  [{ Pubkey := "030000000000000000000000000000000000000000000000000000000000000102",
     Amount := 1000, OnchainAddress := "" },
   { Pubkey := "", Amount := 2500, OnchainAddress := "bcrt1qonchain" }]

/-! ### `toRoundStage` -/

/-- Struct `domain.Stage`; `Code` is a `domain.RoundStage`, an integer type. -/
structure Stage where
  Code : Int
  Ended : Bool
  Failed : Bool
deriving DecidableEq, Repr

/-- The two constants of the `domain` package named by `toRoundStage`.  They
are the labels of two cases of one `switch`, which Go compiles only when the
two values differ. -/
structure StageCodes where
  RegistrationStage : Int
  FinalizationStage : Int
deriving DecidableEq, Repr

/-- Enum `arkv1.RoundStage`: the five externally visible stages. -/
inductive RoundStage where
  | ROUND_STAGE_UNSPECIFIED
  | ROUND_STAGE_REGISTRATION
  | ROUND_STAGE_FINALIZATION
  | ROUND_STAGE_FINALIZED
  | ROUND_STAGE_FAILED
deriving DecidableEq, Repr

/-- Function `toRoundStage`; the cases of the `switch` are tried in order. -/
def toRoundStage (domain : StageCodes) (stage : Stage) : RoundStage :=
  if stage.Failed then .ROUND_STAGE_FAILED
  else if stage.Code = domain.RegistrationStage then .ROUND_STAGE_REGISTRATION
  else if stage.Code = domain.FinalizationStage then
    if stage.Ended then .ROUND_STAGE_FINALIZED
    else .ROUND_STAGE_FINALIZATION
  else .ROUND_STAGE_UNSPECIFIED

/-- Stage codes numbered in the order the stages occur. -/
def sampleStageCodes : StageCodes :=
  { RegistrationStage := 1, FinalizationStage := 2 }

end Handlers

/-! ## `wallet/btc-embedded`: the esplora client -/

namespace BtcWallet

/-- Struct `esploraClient`. -/
structure esploraClient where
  url : String
deriving DecidableEq, Repr

/-- The errors `getFeeRate` returns: one handed back by a callee
(`url.JoinPath`, the HTTP client, the JSON decoder), the
"fee-estimates endpoint HTTP error: " error carrying `resp.Status`, and the
"failed to get fee rate for 1 block" error. -/
inductive FeeRateError where
  | external (msg : String)
  | httpError (status : String)
  | noRateForOneBlock
deriving DecidableEq, Repr

/-- An `http.Response` as `getFeeRate` reads it: the status code, the status
line, and what decoding the body as a JSON object into an empty
`map[string]float64` gives, the map being the list of its entries.  `F` is the
type of `float64` values. -/
structure Response (F : Type) where
  StatusCode : Int
  Status : String
  decoded : Except String (List (String × F))
deriving DecidableEq

/-- Functions of other packages called by `getFeeRate`: `url.JoinPath`, the
GET of the default HTTP client, and the conversion
`btcutil.Amount(feeRate * 1000)` of a `float64` rate. -/
structure Http (F : Type) where
  JoinPath : String → String → Except String String
  Get : String → Except String (Response F)
  amountOfRate : F → Int

/-- Constant `http.StatusOK`. -/
def StatusOK : Int := 200

/-- Method `esploraClient.getFeeRate`: the returned amount and error. -/
def getFeeRate {F : Type} (http : Http F) (f : esploraClient) : Int × Option FeeRateError :=
  match http.JoinPath f.url "fee-estimates" with
  | .error e => (0, some (.external e))
  | .ok endpoint =>
    match http.Get endpoint with
    | .error e => (0, some (.external e))
    | .ok resp =>
      if resp.StatusCode ≠ StatusOK then (0, some (.httpError resp.Status))
      else
        match resp.decoded with
        | .error e => (0, some (.external e))
        | .ok response =>
          if response.length = 0 then (2, none)
          else
            match response.lookup "1" with
            | none => (0, some .noRateForOneBlock)
            | some feeRate => (http.amountOfRate feeRate, none)

/-- A client of a local esplora instance. -/
def sampleClient : esploraClient :=
  { url := "http://localhost:3000" }

/-- An HTTP world in which the fee endpoint answers with the given response;
rates are whole numbers of sat/vbyte. -/
def httpAnswering (resp : Response Int) : Http Int :=
  { JoinPath := fun base elem => .ok (base ++ "/" ++ elem),
    Get := fun endpoint =>
      if endpoint = "http://localhost:3000/fee-estimates" then .ok resp
      else .error "connection refused",
    amountOfRate := fun feeRate => feeRate * 1000 }

/-- The answer 404 of the fee endpoint. -/
def notFoundResponse : Response Int :=
  { StatusCode := 404, Status := "404 Not Found", decoded := .error "unexpected end of JSON input" }

/-- The answer 200 of the fee endpoint with an empty JSON object. -/
def emptyResponse : Response Int :=
  { StatusCode := 200, Status := "200 OK", decoded := .ok [] }

/-- The answer 200 of the fee endpoint with two estimates. -/
def estimatesResponse : Response Int :=
  { StatusCode := 200, Status := "200 OK", decoded := .ok [("1", 12), ("6", 3)] }

end BtcWallet

/-! ## Properties of `Config.Validate` -/

namespace AppConfig

theorem tmod_minAllowedSequence (x : Int) (hx : 0 ≤ x) :
    x.tmod minAllowedSequence = x % 512 := by
  unfold minAllowedSequence
  exact Int.tmod_eq_emod hx (by norm_num)

theorem roundDelays_RoundLifetime (c : Config) (hL : 0 ≤ c.RoundLifetime) :
    (roundDelays c).RoundLifetime = c.RoundLifetime - c.RoundLifetime % 512 := by
  unfold roundDelays
  rw [tmod_minAllowedSequence _ hL]
  by_cases h1 : c.RoundLifetime % 512 = 0
  · simp only [h1, ne_eq, not_true_eq_false, if_false, sub_zero]
    split <;> rfl
  · simp only [h1, ne_eq, not_false_eq_true, if_true]
    split <;> rfl

theorem roundDelays_UnilateralExitDelay (c : Config) (hD : 0 ≤ c.UnilateralExitDelay) :
    (roundDelays c).UnilateralExitDelay =
      c.UnilateralExitDelay - c.UnilateralExitDelay % 512 := by
  unfold roundDelays
  by_cases h1 : c.RoundLifetime.tmod minAllowedSequence = 0
  · simp only [h1, ne_eq, not_true_eq_false, if_false]
    rw [tmod_minAllowedSequence _ hD]
    by_cases h2 : c.UnilateralExitDelay % 512 = 0
    · simp [h2]
    · simp [h2]
  · simp only [h1, ne_eq, not_false_eq_true, if_true]
    rw [tmod_minAllowedSequence _ hD]
    by_cases h2 : c.UnilateralExitDelay % 512 = 0
    · simp [h2]
    · simp [h2]

theorem Validate_fst_of_reaches (ext : Externals) (c : Config)
    (hpre : checkSettings c = none)
    (hL : 512 ≤ c.RoundLifetime) (hD : 512 ≤ c.UnilateralExitDelay) :
    (Validate ext c).1 = roundDelays c := by
  unfold Validate
  rw [hpre]
  have h1 : ¬ c.RoundLifetime < minAllowedSequence := by
    unfold minAllowedSequence; omega
  have h2 : ¬ c.UnilateralExitDelay < minAllowedSequence := by
    unfold minAllowedSequence; omega
  simp only [h1, h2, if_false]

theorem round_down_facts (x : Int) (hx : 512 ≤ x) :
    (512 : Int) ∣ x - x % 512 ∧ 512 ≤ x - x % 512 ∧ x - x % 512 ≤ x ∧
      x - (x - x % 512) ≤ 511 ∧ (x % 512 = 0 → x - x % 512 = x) := by
  refine ⟨?_, ?_, ?_, ?_, ?_⟩
  · exact Int.dvd_sub_of_emod_eq rfl
  · omega
  · omega
  · omega
  · omega

/-- C1: a configuration that reaches the rounding step of `Validate` (the
earlier checks pass, `RoundLifetime = L ≥ 512`, `UnilateralExitDelay = D ≥ 512`)
leaves it with `RoundLifetime = L - L mod 512` and
`UnilateralExitDelay = D - D mod 512`; each is a multiple of 512, at least 512,
at most the configured value, within 511 of it, and unchanged when the
configured value is a multiple of 512 already. -/
theorem Validate_rounds_delays_down (ext : Externals) (c : Config)
    (hpre : checkSettings c = none)
    (hL : 512 ≤ c.RoundLifetime) (hD : 512 ≤ c.UnilateralExitDelay) :
    (Validate ext c).1.RoundLifetime = c.RoundLifetime - c.RoundLifetime % 512 ∧
    (Validate ext c).1.UnilateralExitDelay =
      c.UnilateralExitDelay - c.UnilateralExitDelay % 512 ∧
    ((512 : Int) ∣ (Validate ext c).1.RoundLifetime ∧
      512 ≤ (Validate ext c).1.RoundLifetime ∧
      (Validate ext c).1.RoundLifetime ≤ c.RoundLifetime ∧
      c.RoundLifetime - (Validate ext c).1.RoundLifetime ≤ 511 ∧
      (c.RoundLifetime % 512 = 0 → (Validate ext c).1.RoundLifetime = c.RoundLifetime)) ∧
    ((512 : Int) ∣ (Validate ext c).1.UnilateralExitDelay ∧
      512 ≤ (Validate ext c).1.UnilateralExitDelay ∧
      (Validate ext c).1.UnilateralExitDelay ≤ c.UnilateralExitDelay ∧
      c.UnilateralExitDelay - (Validate ext c).1.UnilateralExitDelay ≤ 511 ∧
      (c.UnilateralExitDelay % 512 = 0 →
        (Validate ext c).1.UnilateralExitDelay = c.UnilateralExitDelay)) := by
  rw [Validate_fst_of_reaches ext c hpre hL hD,
    roundDelays_RoundLifetime c (by omega), roundDelays_UnilateralExitDelay c (by omega)]
  exact ⟨rfl, rfl, round_down_facts _ hL, round_down_facts _ hD⟩

/-- Witness of C1 at the sample configuration: `RoundLifetime` 604700 becomes
604672 and `UnilateralExitDelay` 1024 stays 1024. -/
theorem Validate_rounds_delays_down_witness :
    checkSettings sampleConfig = none ∧
    (Validate sampleExternals sampleConfig).1.RoundLifetime = 604672 ∧
    (Validate sampleExternals sampleConfig).1.UnilateralExitDelay = 1024 :=
  ⟨by decide,
    (Validate_rounds_delays_down sampleExternals sampleConfig
      (by decide) (by decide) (by decide)).1.trans (by decide),
    (Validate_rounds_delays_down sampleExternals sampleConfig
      (by decide) (by decide) (by decide)).2.1.trans (by decide)⟩

/-- C10, as stated, fails: with `RoundLifetime = 100` and every other setting
valid, `Validate` returns the invalid-round-lifetime error and leaves the
lifetime at 100, which is not `max 512 (100 - 100 mod 512) = 512`. -/
theorem Validate_short_lifetime_not_clamped :
    (Validate sampleExternals shortLifetimeConfig).2 = some ValidateError.invalidRoundLifetime ∧
    (Validate sampleExternals shortLifetimeConfig).1.RoundLifetime = 100 ∧
    (Validate sampleExternals shortLifetimeConfig).1.RoundLifetime ≠
      max 512 (shortLifetimeConfig.RoundLifetime - shortLifetimeConfig.RoundLifetime % 512) := by
  decide

/-- C10 amended: when the earlier checks pass, a `RoundLifetime` below 512 is
rejected with the invalid-round-lifetime error and the configuration is left
as it was (no clamping); when `RoundLifetime = L ≥ 512` and
`UnilateralExitDelay ≥ 512` the lifetime left by `Validate` is
`max 512 (L - L mod 512) = L - L mod 512`. -/
theorem Validate_short_lifetime_rejected (ext : Externals) (c : Config)
    (hpre : checkSettings c = none) :
    (c.RoundLifetime < 512 → Validate ext c = (c, some ValidateError.invalidRoundLifetime)) ∧
    (512 ≤ c.RoundLifetime → 512 ≤ c.UnilateralExitDelay →
      (Validate ext c).1.RoundLifetime = max 512 (c.RoundLifetime - c.RoundLifetime % 512) ∧
      (Validate ext c).1.RoundLifetime = c.RoundLifetime - c.RoundLifetime % 512) := by
  constructor
  · intro h
    unfold Validate
    rw [hpre]
    have h1 : c.RoundLifetime < minAllowedSequence := by
      unfold minAllowedSequence; exact h
    simp only [h1, if_true]
  · intro hL hD
    rw [Validate_fst_of_reaches ext c hpre hL hD, roundDelays_RoundLifetime c (by omega)]
    refine ⟨?_, rfl⟩
    rw [max_eq_right]
    omega

/-- Witness of the amended C10 at the sample configuration with lifetime 100. -/
theorem Validate_short_lifetime_rejected_witness :
    checkSettings shortLifetimeConfig = none ∧
    Validate sampleExternals shortLifetimeConfig =
      (shortLifetimeConfig, some ValidateError.invalidRoundLifetime) :=
  ⟨by decide,
    (Validate_short_lifetime_rejected sampleExternals shortLifetimeConfig (by decide)).1
      (by decide)⟩

end AppConfig

/-! ## Properties of the redeem branch -/

namespace Covenantless

/-! ### `offchainPath` -/

theorem offchainPathLoop_succ_of_not_onchain (lib : Lib) (r : redeemBranch) (i : Nat)
    (acc : List Packet) (p : Packet) (hget : r.branch[i]? = some p)
    (hp : ¬ onchain lib r.explorer p) :
    offchainPathLoop lib r (i + 1) acc = offchainPathLoop lib r i acc := by
  unfold onchain at hp
  rw [offchainPathLoop, hget]
  cases h : (r.explorer.GetTxHex (lib.TxHash p.UnsignedTx)).2 with
  | none => exact absurd h hp
  | some e => simp only [h]

theorem offchainPathLoop_succ_of_onchain (lib : Lib) (r : redeemBranch) (i : Nat)
    (acc : List Packet) (p : Packet) (hget : r.branch[i]? = some p)
    (hp : onchain lib r.explorer p) :
    offchainPathLoop lib r (i + 1) acc = .ok (r.branch.drop (i + 1)) := by
  unfold onchain at hp
  rw [offchainPathLoop, hget]
  simp only [hp]
  have hi : i < r.branch.length := (List.getElem?_eq_some.mp hget).1
  split
  · next hlast =>
    have : r.branch.drop (i + 1) = [] := List.drop_eq_nil_of_le (by omega)
    rw [this]
  · rfl

theorem offchainPathLoop_none_found (lib : Lib) (r : redeemBranch) :
    ∀ (n : Nat) (acc : List Packet), n ≤ r.branch.length →
      (∀ j p, j < n → r.branch[j]? = some p → ¬ onchain lib r.explorer p) →
      offchainPathLoop lib r n acc = .ok acc := by
  intro n
  induction n with
  | zero => intro acc _ _; rfl
  | succ i ih =>
    intro acc hn hall
    have hi : i < r.branch.length := by omega
    have hget : r.branch[i]? = some r.branch[i] := List.getElem?_eq_getElem hi
    rw [offchainPathLoop_succ_of_not_onchain lib r i acc _ hget (hall i _ (by omega) hget)]
    exact ih acc (by omega) (fun j p hj => hall j p (by omega))

theorem offchainPathLoop_last_found (lib : Lib) (r : redeemBranch) (k : Nat) (p : Packet)
    (hk : r.branch[k]? = some p) (hp : onchain lib r.explorer p) :
    ∀ (n : Nat) (acc : List Packet), k < n → n ≤ r.branch.length →
      (∀ j q, k < j → j < n → r.branch[j]? = some q → ¬ onchain lib r.explorer q) →
      offchainPathLoop lib r n acc = .ok (r.branch.drop (k + 1)) := by
  intro n
  induction n with
  | zero => intro acc hkn; omega
  | succ i ih =>
    intro acc hkn hn hall
    by_cases hik : i = k
    · subst hik
      exact offchainPathLoop_succ_of_onchain lib r i acc p hk hp
    · have hi : i < r.branch.length := by omega
      have hget : r.branch[i]? = some r.branch[i] := List.getElem?_eq_getElem hi
      rw [offchainPathLoop_succ_of_not_onchain lib r i acc _ hget
        (hall i _ (by omega) (by omega) hget)]
      exact ih acc (by omega) (by omega) (fun j q h1 h2 => hall j q h1 (by omega))

theorem offchainPathLoop_is_suffix (lib : Lib) (r : redeemBranch) :
    ∀ (n : Nat) (acc : List Packet), n ≤ r.branch.length →
      (∃ m, acc = r.branch.drop m) →
      ∃ m, offchainPathLoop lib r n acc = .ok (r.branch.drop m) := by
  intro n
  induction n with
  | zero =>
    intro acc _ hacc
    obtain ⟨m, hm⟩ := hacc
    exact ⟨m, by rw [hm]; rfl⟩
  | succ i ih =>
    intro acc hn hacc
    have hi : i < r.branch.length := by omega
    have hget : r.branch[i]? = some r.branch[i] := List.getElem?_eq_getElem hi
    by_cases hp : onchain lib r.explorer r.branch[i]
    · exact ⟨i + 1, offchainPathLoop_succ_of_onchain lib r i acc _ hget hp⟩
    · rw [offchainPathLoop_succ_of_not_onchain lib r i acc _ hget hp]
      exact ih acc (by omega) hacc

theorem mem_drop_of_getElem? {α : Type} (l : List α) (k j : Nat) (q : α)
    (hkj : k < j) (hq : l[j]? = some q) : q ∈ l.drop (k + 1) := by
  have h : (l.drop (k + 1))[j - (k + 1)]? = some q := by
    rw [List.getElem?_drop]
    have : k + 1 + (j - (k + 1)) = j := by omega
    rw [this]; exact hq
  exact List.getElem?_mem h

theorem offchainPath_none_found (lib : Lib) (r : redeemBranch)
    (hall : ∀ p ∈ r.branch, ¬ onchain lib r.explorer p) :
    offchainPath lib r = .ok r.branch :=
  offchainPathLoop_none_found lib r r.branch.length r.branch (le_refl _)
    (fun _ p _ hget => hall p (List.getElem?_mem hget))

theorem offchainPath_last_found (lib : Lib) (r : redeemBranch) (k : Nat) (p : Packet)
    (hk : r.branch[k]? = some p) (hp : onchain lib r.explorer p)
    (hafter : ∀ q ∈ r.branch.drop (k + 1), ¬ onchain lib r.explorer q) :
    offchainPath lib r = .ok (r.branch.drop (k + 1)) :=
  offchainPathLoop_last_found lib r k p hk hp r.branch.length r.branch
    (List.getElem?_eq_some.mp hk).1 (le_refl _)
    (fun j q hkj _ hq => hafter q (mem_drop_of_getElem? r.branch k j q hkj hq))

theorem offchainPath_leaf_found (lib : Lib) (r : redeemBranch) (leaf : Packet)
    (hleaf : r.branch.getLast? = some leaf) (hp : onchain lib r.explorer leaf) :
    offchainPath lib r = .ok [] := by
  have hne : r.branch ≠ [] := by
    intro h; rw [h] at hleaf; simp at hleaf
  have hlen : 0 < r.branch.length := List.length_pos.mpr hne
  have hk : r.branch[r.branch.length - 1]? = some leaf := by
    rw [← List.getLast?_eq_getElem?]; exact hleaf
  have hdrop : r.branch.drop (r.branch.length - 1 + 1) = [] :=
    List.drop_eq_nil_of_le (by omega)
  have h := offchainPath_last_found lib r _ leaf hk hp (by rw [hdrop]; simp)
  rw [hdrop] at h
  exact h

/-- C2: `offchainPath` never fails and returns a contiguous suffix of the
branch: the whole branch when the explorer finds no node, the nodes after
index `k` when `k` is the largest index whose node the explorer finds, and
the empty list when the leaf itself is found. -/
theorem offchainPath_is_offchain_suffix (lib : Lib) (r : redeemBranch) :
    (∃ n, offchainPath lib r = .ok (r.branch.drop n)) ∧
    ((∀ p ∈ r.branch, ¬ onchain lib r.explorer p) → offchainPath lib r = .ok r.branch) ∧
    (∀ (k : Nat) (p : Packet), r.branch[k]? = some p → onchain lib r.explorer p →
      (∀ q ∈ r.branch.drop (k + 1), ¬ onchain lib r.explorer q) →
      offchainPath lib r = .ok (r.branch.drop (k + 1))) ∧
    (∀ leaf, r.branch.getLast? = some leaf → onchain lib r.explorer leaf →
      offchainPath lib r = .ok []) :=
  ⟨offchainPathLoop_is_suffix lib r r.branch.length r.branch (le_refl _) ⟨0, rfl⟩,
    offchainPath_none_found lib r,
    fun k p => offchainPath_last_found lib r k p,
    fun leaf => offchainPath_leaf_found lib r leaf⟩

/-- Witness of C2: on the branch `[A, B, C, D]` with `A` and `B` found and
`C` and `D` unknown, `B` (index 1) is the last node found and the result is
`[C, D]`. -/
theorem offchainPath_is_offchain_suffix_witness :
    offchainPath sampleLib sampleBranch = .ok [packetOf 0xc3 [3], packetOf 0xd4 [4]] :=
  (offchainPath_is_offchain_suffix sampleLib sampleBranch).2.2.1 1 (packetOf 0xb2 [2])
    (by decide) (by decide) (by decide)

/-! ### `redeemPath` -/

theorem redeemPathLoop_cons_of_redeems (lib : Lib) (p : Packet) (rest : List Packet)
    (acc : List String) (s : String) (hs : Redeems lib p s) :
    redeemPathLoop lib (p :: rest) acc = redeemPathLoop lib rest (acc ++ [s]) := by
  obtain ⟨firstInput, others, witness, extracted, txBytes, hin, hsig, hw, hex, hser, hstr⟩ := hs
  have hlen : ¬ firstInput.TaprootKeySpendSig.length = 0 := by
    intro h; exact hsig (List.length_eq_zero.mp h)
  rw [redeemPathLoop]
  simp only [hin, hlen, if_false, hw, hex, hser, hstr]

theorem redeemPathLoop_cons_of_lacks (lib : Lib) (p : Packet) (rest : List Packet)
    (acc : List String) (hp : lacksKeySpendSig p) :
    redeemPathLoop lib (p :: rest) acc = .error .missingKeySpendSig := by
  unfold lacksKeySpendSig at hp
  rw [redeemPathLoop]
  cases hin : p.Inputs with
  | nil => rw [hin] at hp; simp at hp
  | cons firstInput others =>
    rw [hin] at hp
    simp only [List.head?_cons, Option.map_some', Option.some.injEq] at hp
    simp only [hp, List.length_nil, if_true]

theorem redeemPathLoop_all_redeem (lib : Lib) :
    ∀ (path : List Packet) (acc : List String),
      (∀ p ∈ path, ∃ s, Redeems lib p s) →
      ∃ txs, redeemPathLoop lib path acc = .ok (acc ++ txs) ∧
        List.Forall₂ (Redeems lib) path txs := by
  intro path
  induction path with
  | nil =>
    intro acc _
    exact ⟨[], by simp [redeemPathLoop], List.Forall₂.nil⟩
  | cons p rest ih =>
    intro acc hall
    obtain ⟨s, hs⟩ := hall p (List.mem_cons_self _ _)
    obtain ⟨txs, htxs, hrel⟩ :=
      ih (acc ++ [s]) (fun q hq => hall q (List.mem_cons_of_mem _ hq))
    refine ⟨s :: txs, ?_, List.Forall₂.cons hs hrel⟩
    rw [redeemPathLoop_cons_of_redeems lib p rest acc s hs, htxs]
    simp

theorem redeemPathLoop_redeems_then_lacks (lib : Lib) :
    ∀ (pre : List Packet) (p : Packet) (post : List Packet) (acc : List String),
      (∀ q ∈ pre, ∃ s, Redeems lib q s) → lacksKeySpendSig p →
      redeemPathLoop lib (pre ++ p :: post) acc = .error .missingKeySpendSig := by
  intro pre
  induction pre with
  | nil =>
    intro p post acc _ hp
    exact redeemPathLoop_cons_of_lacks lib p post acc hp
  | cons q pre ih =>
    intro p post acc hpre hp
    obtain ⟨s, hs⟩ := hpre q (List.mem_cons_self _ _)
    rw [List.cons_append, redeemPathLoop_cons_of_redeems lib q _ acc s hs]
    exact ih p post _ (fun q1 hq1 => hpre q1 (List.mem_cons_of_mem _ hq1)) hp

theorem redeemPathLoop_error_of_lacks (lib : Lib) :
    ∀ (path : List Packet) (acc : List String),
      (∃ p ∈ path, lacksKeySpendSig p) →
      ∃ e, redeemPathLoop lib path acc = .error e := by
  intro path
  induction path with
  | nil =>
    intro acc h
    obtain ⟨p, hp, _⟩ := h
    simp at hp
  | cons q rest ih =>
    intro acc h
    by_cases hq : lacksKeySpendSig q
    · exact ⟨_, redeemPathLoop_cons_of_lacks lib q rest acc hq⟩
    · have hrest : ∃ p ∈ rest, lacksKeySpendSig p := by
        obtain ⟨p, hp, hl⟩ := h
        rcases List.mem_cons.mp hp with hpq | hpr
        · subst hpq; exact absurd hl hq
        · exact ⟨p, hpr, hl⟩
      rw [redeemPathLoop]
      cases hin : q.Inputs with
      | nil => exact ⟨_, rfl⟩
      | cons firstInput others =>
        simp only
        split
        · exact ⟨_, rfl⟩
        · cases hw : lib.WriteTxWitness [firstInput.TaprootKeySpendSig] with
          | error e => exact ⟨_, rfl⟩
          | ok witness =>
            simp only
            cases hex : lib.Extract
                { q with
                  Inputs := { firstInput with FinalScriptWitness := witness } :: others } with
            | error e => exact ⟨_, rfl⟩
            | ok extracted =>
              simp only
              cases hser : lib.Serialize extracted with
              | error e => exact ⟨_, rfl⟩
              | ok txBytes => exact ih _ hrest

theorem redeemPath_eq_loop (lib : Lib) (r : redeemBranch) (path : List Packet)
    (hpath : offchainPath lib r = .ok path) :
    redeemPath lib r = redeemPathLoop lib path [] := by
  unfold redeemPath
  rw [hpath]

theorem sample_redeems_c3 : Redeems sampleLib (packetOf 0xc3 [3]) "c3010103" :=
  ⟨_, _, _, _, _, rfl, by decide, rfl, rfl, rfl, by decide⟩

theorem sample_redeems_d4 : Redeems sampleLib (packetOf 0xd4 [4]) "d4010104" :=
  ⟨_, _, _, _, _, rfl, by decide, rfl, rfl, rfl, by decide⟩

/-- C3, as stated, fails: the root `A` of the branch `[A, C]` has no key-spend
signature on input 0, but `A` is on-chain, so `redeemPath` never inspects it
and returns the hex of `C`. -/
theorem redeemPath_ignores_onchain_unsigned_node :
    packetOf 0xa1 [] ∈ unsignedRootBranch.branch ∧
    lacksKeySpendSig (packetOf 0xa1 []) ∧
    redeemPath sampleLib unsignedRootBranch = .ok ["c3010103"] := by
  decide

/-- C3 amended: when some node of the off-chain path (the suffix returned by
`offchainPath`, not the whole branch) has no key-spend signature on input 0,
`redeemPath` fails and returns no transactions; the failure is the
missing-key-spend-signature error when every off-chain node before that node
is finalized, extracted and serialized successfully. -/
theorem redeemPath_fails_on_unsigned_offchain_node (lib : Lib) (r : redeemBranch)
    (path : List Packet) (hpath : offchainPath lib r = .ok path) :
    ((∃ p ∈ path, lacksKeySpendSig p) → ∃ e, redeemPath lib r = .error e) ∧
    (∀ (pre : List Packet) (p : Packet) (post : List Packet),
      path = pre ++ p :: post → (∀ q ∈ pre, ∃ s, Redeems lib q s) → lacksKeySpendSig p →
      redeemPath lib r = .error .missingKeySpendSig) := by
  rw [redeemPath_eq_loop lib r path hpath]
  refine ⟨redeemPathLoop_error_of_lacks lib path [], ?_⟩
  intro pre p post hsplit hpre hp
  rw [hsplit]
  exact redeemPathLoop_redeems_then_lacks lib pre p post [] hpre hp

/-- Witness of the amended C3: in the branch `[A, B, C, D]` with `A` and `B`
on-chain, the off-chain leaf `D` has no signature and `C` redeems. -/
theorem redeemPath_fails_on_unsigned_offchain_node_witness :
    offchainPath sampleLib unsignedLeafBranch = .ok [packetOf 0xc3 [3], packetOf 0xd4 []] ∧
    redeemPath sampleLib unsignedLeafBranch = .error .missingKeySpendSig :=
  ⟨by decide,
    (redeemPath_fails_on_unsigned_offchain_node sampleLib unsignedLeafBranch
      [packetOf 0xc3 [3], packetOf 0xd4 []] (by decide)).2
      [packetOf 0xc3 [3]] (packetOf 0xd4 []) [] rfl
      (fun q hq => by
        rw [List.mem_singleton] at hq
        subst hq
        exact ⟨_, sample_redeems_c3⟩)
      (by decide)⟩

/-- C4: when every node of the off-chain path carries a key-spend signature
on input 0 and is finalized, extracted and serialized successfully,
`redeemPath` returns one hex string per node of `offchainPath`, in the same
order, the i-th being the hex of the i-th transaction finalized with the
witness stack `[keySpendSig]`; the two lists have the same length; and the
result is empty when the leaf is on-chain. -/
theorem redeemPath_hex_per_offchain_node (lib : Lib) (r : redeemBranch) :
    ((∀ path, offchainPath lib r = .ok path → ∀ p ∈ path, ∃ s, Redeems lib p s) →
      ∃ path txs, offchainPath lib r = .ok path ∧ redeemPath lib r = .ok txs ∧
        List.Forall₂ (Redeems lib) path txs ∧ txs.length = path.length) ∧
    (∀ leaf, r.branch.getLast? = some leaf → onchain lib r.explorer leaf →
      redeemPath lib r = .ok []) := by
  constructor
  · intro hall
    obtain ⟨n, hn⟩ := offchainPathLoop_is_suffix lib r r.branch.length r.branch (le_refl _)
      ⟨0, rfl⟩
    obtain ⟨txs, htxs, hrel⟩ := redeemPathLoop_all_redeem lib _ [] (hall _ hn)
    refine ⟨_, txs, hn, ?_, hrel, hrel.length_eq.symm⟩
    rw [redeemPath_eq_loop lib r _ hn, htxs]
    simp
  · intro leaf hleaf hp
    rw [redeemPath_eq_loop lib r [] (offchainPath_leaf_found lib r leaf hleaf hp)]
    rfl

/-- Witness of C4: on the branch `[A, B, C, D]` with `A` and `B` on-chain the
two off-chain nodes redeem, and `redeemPath` returns two hexes. -/
theorem redeemPath_hex_per_offchain_node_witness :
    (∃ path txs, offchainPath sampleLib sampleBranch = .ok path ∧
      redeemPath sampleLib sampleBranch = .ok txs ∧
      List.Forall₂ (Redeems sampleLib) path txs ∧ txs.length = path.length) ∧
    redeemPath sampleLib sampleBranch = .ok ["c3010103", "d4010104"] :=
  ⟨(redeemPath_hex_per_offchain_node sampleLib sampleBranch).1 (fun path hpath p hp => by
      have h : path = [packetOf 0xc3 [3], packetOf 0xd4 [4]] := by
        have h0 : offchainPath sampleLib sampleBranch =
            .ok [packetOf 0xc3 [3], packetOf 0xd4 [4]] := by decide
        rw [h0] at hpath
        exact (Except.ok.inj hpath).symm
      subst h
      rcases List.mem_cons.mp hp with h1 | h2
      · subst h1; exact ⟨_, sample_redeems_c3⟩
      · rw [List.mem_singleton] at h2
        subst h2; exact ⟨_, sample_redeems_d4⟩),
    by decide⟩

/-! ### `expireAt` -/

theorem expireAtLoop_cons_of_confirmed (lib : Lib) (explorer : Explorer) (p : Packet)
    (rest : List Packet) (last : Int) (hp : confirmedOk lib explorer p) :
    expireAtLoop lib explorer (p :: rest) last =
      expireAtLoop lib explorer rest (blocktimeOf lib explorer p) := by
  obtain ⟨h1, h2⟩ := hp
  unfold blocktimeOf
  rw [expireAtLoop]
  generalize explorer.GetTxBlocktime (lib.TxHash p.UnsignedTx) = res at h1 h2
  obtain ⟨confirmed, blocktime, err⟩ := res
  simp only at h1 h2
  simp [h1, h2]

theorem expireAtLoop_cons_of_not_confirmed (lib : Lib) (explorer : Explorer) (p : Packet)
    (rest : List Packet) (last : Int) (hp : ¬ confirmedOk lib explorer p) :
    expireAtLoop lib explorer (p :: rest) last = last := by
  unfold confirmedOk at hp
  rw [expireAtLoop]
  generalize explorer.GetTxBlocktime (lib.TxHash p.UnsignedTx) = res at hp
  obtain ⟨confirmed, blocktime, err⟩ := res
  simp only at hp
  cases err with
  | some e => simp
  | none =>
    cases confirmed with
    | true => simp at hp
    | false => simp

theorem expireAtLoop_confirmed_run (lib : Lib) (explorer : Explorer) (post : List Packet)
    (hpost : ∀ q, post.head? = some q → ¬ confirmedOk lib explorer q) :
    ∀ (pre : List Packet) (last : Int), (∀ p ∈ pre, confirmedOk lib explorer p) →
      expireAtLoop lib explorer (pre ++ post) last =
        (pre.getLast?.map (blocktimeOf lib explorer)).getD last := by
  intro pre
  induction pre with
  | nil =>
    intro last _
    cases post with
    | nil => rfl
    | cons q rest =>
      exact expireAtLoop_cons_of_not_confirmed lib explorer q rest last (hpost q rfl)
  | cons p pre ih =>
    intro last hpre
    rw [List.cons_append,
      expireAtLoop_cons_of_confirmed lib explorer p _ last (hpre p (List.mem_cons_self _ _)),
      ih _ (fun q hq => hpre q (List.mem_cons_of_mem _ hq))]
    cases pre with
    | nil => rfl
    | cons p2 pre2 => rw [List.getLast?_cons_cons]; rfl

/-- C5: when the explorer reports the pool transaction as not confirmed,
whether or not that query returns an error, `expireAt` returns, without
error, `now + 1 minute + lifetime`, whatever the branch and whatever the
explorer reports about its nodes. -/
theorem expireAt_pool_unconfirmed (lib : Lib) (r : redeemBranch) (now : Time)
    (hpool : (r.explorer.GetTxBlocktime r.vtxo.poolTxid).1 = false) :
    expireAt lib r now = .ok (now + 60 * 1000000000 + r.lifetime) := by
  unfold expireAt
  generalize r.explorer.GetTxBlocktime r.vtxo.poolTxid = res at hpool
  obtain ⟨confirmed, blocktime, err⟩ := res
  simp only at hpool
  simp [hpool, Minute]

/-- Witness of C5: the explorer answers the pool query with an error. -/
theorem expireAt_pool_unconfirmed_witness :
    (blindExplorer.GetTxBlocktime unseenBranch.vtxo.poolTxid).2.2 = some "tx not found" ∧
    expireAt sampleLib unseenBranch 1700000000000000000 =
      .ok (1700000000000000000 + 60 * 1000000000 + 604672 * 1000000000) :=
  ⟨by decide, expireAt_pool_unconfirmed sampleLib unseenBranch 1700000000000000000 (by decide)⟩

theorem wrapInt64_of_range (x : Int) (hlo : -9223372036854775808 ≤ x)
    (hhi : x ≤ 9223372036854775807) : wrapInt64 x = x := by
  unfold wrapInt64
  omega

theorem addSec_of_range (ext d : Int) (hlo : -9223372036854775808 ≤ ext + d)
    (hhi : ext + d ≤ 9223372036854775807) : addSec ext d = ext + d := by
  unfold addSec
  rw [wrapInt64_of_range (ext + d) hlo hhi]
  have h : decide (ext + d > ext) = decide (d > 0) := by
    by_cases hd : d > 0
    · have h1 : ext + d > ext := by omega
      simp [hd, h1]
    · have h1 : ¬ ext + d > ext := by omega
      simp [hd, h1]
  simp only [h, if_true]

theorem tdiv_tmod_facts (d : Int) :
    -1000000000 < d.tmod 1000000000 ∧ d.tmod 1000000000 < 1000000000 ∧
      1000000000 * d.tdiv 1000000000 + d.tmod 1000000000 = d := by
  have hsum := Int.tdiv_add_tmod d 1000000000
  refine ⟨?_, Int.tmod_lt_of_pos d (by norm_num), hsum⟩
  rcases le_or_lt 0 d with h | h
  · have := Int.tmod_nonneg (1000000000 : Int) h
    omega
  · have h1 : d.tdiv 1000000000 = -((-d) / 1000000000) := by
      have h2 : d = -(-d) := by omega
      rw [h2, Int.neg_tdiv, Int.tdiv_eq_ediv (by omega) (by norm_num)]
      simp
    rw [h1] at hsum
    omega

/-- Within `|sec| ≤ 2^62` and for any `int64` duration, `time.Unix(sec, 0)`
followed by `Add` denotes exactly `sec` seconds plus the duration. -/
theorem instantOf_Add_Unix (sec d : Int)
    (hlo : -4611686018427387904 ≤ sec) (hhi : sec ≤ 4611686018427387904)
    (hdlo : -9223372036854775808 ≤ d) (hdhi : d ≤ 9223372036854775807) :
    instantOf (Add (Unix sec) d) = sec * 1000000000 + d := by
  obtain ⟨hm1, hm2, hsum⟩ := tdiv_tmod_facts d
  have hext : wrapInt64 (sec + unixToInternal) = sec + unixToInternal := by
    apply wrapInt64_of_range <;> (unfold unixToInternal; omega)
  have hu : unixToInternal = 62135596800 := rfl
  unfold Add Unix
  simp only [hext, zero_add]
  have hq : -9223372037 ≤ d.tdiv 1000000000 ∧ d.tdiv 1000000000 ≤ 9223372037 := by
    constructor <;> omega
  have hge : ¬ d.tmod 1000000000 ≥ 1000000000 := by omega
  simp only [hge, if_false]
  by_cases hneg : d.tmod 1000000000 < 0
  · simp only [hneg, if_true]
    rw [addSec_of_range (sec + unixToInternal) (d.tdiv 1000000000 - 1) (by omega) (by omega)]
    have key : (sec + unixToInternal + (d.tdiv 1000000000 - 1) - unixToInternal) * 1000000000 +
        (d.tmod 1000000000 + 1000000000) = sec * 1000000000 + d := by omega
    exact key
  · simp only [hneg, if_false]
    rw [addSec_of_range (sec + unixToInternal) (d.tdiv 1000000000) (by omega) (by omega)]
    have key : (sec + unixToInternal + d.tdiv 1000000000 - unixToInternal) * 1000000000 +
        d.tmod 1000000000 = sec * 1000000000 + d := by omega
    exact key

/-- C6, as stated, fails at the limit of `int64`: with the pool transaction
confirmed at block time `2^63 - 1`, an empty branch and a lifetime of 604672
seconds, the seconds of `time.Unix` wrap and `expireAt` returns the instant
`-9223372036854171137` seconds, not `T0 + lifetime`. -/
theorem expireAt_wraps_at_largest_blocktime :
    (farFutureBranch.explorer.GetTxBlocktime farFutureBranch.vtxo.poolTxid).1 = true ∧
    (farFutureBranch.explorer.GetTxBlocktime farFutureBranch.vtxo.poolTxid).2.1 =
      9223372036854775807 ∧
    farFutureBranch.branch = [] ∧
    expireAt sampleLib farFutureBranch 0 = .ok (-9223372036854171137 * 1000000000) ∧
    expireAt sampleLib farFutureBranch 0 ≠
      .ok (9223372036854775807 * 1000000000 + farFutureBranch.lifetime) := by
  decide

/-- C6 amended: when the explorer reports the pool transaction confirmed with
block time `T0`, `expireAt` returns, without error, the instant of
`time.Unix(T, 0).Add(lifetime)`, where `T` is the block time of the last node
of the longest prefix `pre` of the branch whose nodes are all reported
confirmed without a query error, and `T = T0` when that prefix is empty; the
nodes after the first unconfirmed or failing node (the tail of `post`) do not
enter the result.  That instant is `T` seconds plus the lifetime whenever
`|T| ≤ 2^62` and the lifetime is an `int64` duration. -/
theorem expireAt_pool_confirmed (lib : Lib) (r : redeemBranch) (now : Time) (T0 : Int)
    (pre post : List Packet)
    (hpool : (r.explorer.GetTxBlocktime r.vtxo.poolTxid).1 = true)
    (hT0 : (r.explorer.GetTxBlocktime r.vtxo.poolTxid).2.1 = T0)
    (hsplit : r.branch = pre ++ post)
    (hpre : ∀ p ∈ pre, confirmedOk lib r.explorer p)
    (hpost : ∀ q, post.head? = some q → ¬ confirmedOk lib r.explorer q) :
    expireAt lib r now =
      .ok (instantOf
        (Add (Unix ((pre.getLast?.map (blocktimeOf lib r.explorer)).getD T0)) r.lifetime)) ∧
    (-4611686018427387904 ≤ (pre.getLast?.map (blocktimeOf lib r.explorer)).getD T0 →
      (pre.getLast?.map (blocktimeOf lib r.explorer)).getD T0 ≤ 4611686018427387904 →
      -9223372036854775808 ≤ r.lifetime → r.lifetime ≤ 9223372036854775807 →
      expireAt lib r now =
        .ok ((pre.getLast?.map (blocktimeOf lib r.explorer)).getD T0 * 1000000000 +
          r.lifetime)) := by
  have hmain : expireAt lib r now =
      .ok (instantOf
        (Add (Unix ((pre.getLast?.map (blocktimeOf lib r.explorer)).getD T0)) r.lifetime)) := by
    unfold expireAt
    rw [hsplit]
    generalize r.explorer.GetTxBlocktime r.vtxo.poolTxid = res at hpool hT0
    obtain ⟨confirmed, blocktime, err⟩ := res
    simp only at hpool hT0
    simp only [hpool, if_true]
    rw [expireAtLoop_confirmed_run lib r.explorer post hpost pre _ hpre, hT0]
  refine ⟨hmain, fun h1 h2 h3 h4 => ?_⟩
  rw [hmain, instantOf_Add_Unix _ _ h1 h2 h3 h4]

/-- Witness of the amended C6: on the branch `[A, B, C, D]` with the pool
transaction, `A` and `B` confirmed, the result is the block time of `B` plus
the lifetime. -/
theorem expireAt_pool_confirmed_witness :
    expireAt sampleLib sampleBranch 0 = .ok (1700001200 * 1000000000 + 604672 * 1000000000) :=
  (expireAt_pool_confirmed sampleLib sampleBranch 0 1700000000
    [packetOf 0xa1 [1], packetOf 0xb2 [2]] [packetOf 0xc3 [3], packetOf 0xd4 [4]]
    (by decide) (by decide) rfl (by decide) (by decide)).2
    (by decide) (by decide) (by decide) (by decide)

/-! ### `findSweepClosure` -/

theorem findSweepClosureLoop_cons_select (lib : Lib) (l : TaprootTapLeafScript)
    (rest : List TaprootTapLeafScript) (s : Nat) (sc : Option TapLeaf)
    (hv : validClosure lib l) (hs : s < closureSeconds lib l) :
    findSweepClosureLoop lib (l :: rest) s sc =
      findSweepClosureLoop lib rest (closureSeconds lib l) (some (NewBaseTapLeaf l.Script)) := by
  obtain ⟨h1, h2⟩ := hv
  unfold closureSeconds at hs ⊢
  rw [findSweepClosureLoop]
  simp [h1, h2, hs]

theorem findSweepClosureLoop_cons_skip (lib : Lib) (l : TaprootTapLeafScript)
    (rest : List TaprootTapLeafScript) (s : Nat) (sc : Option TapLeaf)
    (h : ¬ (validClosure lib l ∧ s < closureSeconds lib l)) :
    findSweepClosureLoop lib (l :: rest) s sc = findSweepClosureLoop lib rest s sc := by
  unfold validClosure closureSeconds at h
  rw [findSweepClosureLoop]
  cases herr : (lib.Decode l.Script).err with
  | some e => simp
  | none =>
    simp only [herr, true_and] at h
    have hcond : ((lib.Decode l.Script).valid &&
        decide ((lib.Decode l.Script).closure.Seconds > s)) = false := by
      cases hvalid : (lib.Decode l.Script).valid with
      | false => simp
      | true =>
        simp only [hvalid, true_and] at h
        simp only [Bool.true_and, decide_eq_false_iff_not, gt_iff_lt]
        exact h
    simp [hcond]

/-- The invariant of the loop of `findSweepClosure`: the seconds it ends with
bound those of every valid closure and those it started with; either nothing
was selected, or the selected leaf is valid, carries the final seconds and
every valid closure before it carries strictly fewer. -/
theorem findSweepClosureLoop_spec (lib : Lib) :
    ∀ (leaves : List TaprootTapLeafScript) (s : Nat) (sc : Option TapLeaf),
      (∀ l ∈ leaves, validClosure lib l →
        closureSeconds lib l ≤ (findSweepClosureLoop lib leaves s sc).1) ∧
      s ≤ (findSweepClosureLoop lib leaves s sc).1 ∧
      ((findSweepClosureLoop lib leaves s sc = (s, sc) ∧
          ∀ l ∈ leaves, validClosure lib l → closureSeconds lib l ≤ s) ∨
        (∃ pre l post, leaves = pre ++ l :: post ∧ validClosure lib l ∧
          closureSeconds lib l = (findSweepClosureLoop lib leaves s sc).1 ∧
          (findSweepClosureLoop lib leaves s sc).2 = some (NewBaseTapLeaf l.Script) ∧
          s < (findSweepClosureLoop lib leaves s sc).1 ∧
          ∀ q ∈ pre, validClosure lib q →
            closureSeconds lib q < (findSweepClosureLoop lib leaves s sc).1)) := by
  intro leaves
  induction leaves with
  | nil =>
    intro s sc
    refine ⟨fun l hl => by simp at hl, le_refl _, Or.inl ⟨rfl, fun l hl => by simp at hl⟩⟩
  | cons l rest ih =>
    intro s sc
    by_cases hsel : validClosure lib l ∧ s < closureSeconds lib l
    · obtain ⟨hv, hs⟩ := hsel
      rw [findSweepClosureLoop_cons_select lib l rest s sc hv hs]
      obtain ⟨hbound, hmono, hcase⟩ :=
        ih (closureSeconds lib l) (some (NewBaseTapLeaf l.Script))
      refine ⟨?_, by omega, Or.inr ?_⟩
      · intro q hq hqv
        rcases List.mem_cons.mp hq with h1 | h2
        · subst h1; exact hmono
        · exact hbound q h2 hqv
      · rcases hcase with ⟨heq, _⟩ | ⟨pre, l2, post, hsplit, hv2, hs2, hleaf2, hlt2, hpre2⟩
        · refine ⟨[], l, rest, rfl, hv, ?_, ?_, ?_, fun q hq => by simp at hq⟩
          · rw [heq]
          · rw [heq]
          · rw [heq]; exact hs
        · refine ⟨l :: pre, l2, post, by rw [hsplit]; rfl, hv2, hs2, hleaf2, by omega, ?_⟩
          intro q hq hqv
          rcases List.mem_cons.mp hq with h1 | h2
          · subst h1; exact hlt2
          · exact hpre2 q h2 hqv
    · rw [findSweepClosureLoop_cons_skip lib l rest s sc hsel]
      obtain ⟨hbound, hmono, hcase⟩ := ih s sc
      have hl : validClosure lib l → closureSeconds lib l ≤ s := by
        intro hv
        by_contra hcon
        exact hsel ⟨hv, by omega⟩
      refine ⟨?_, hmono, ?_⟩
      · intro q hq hqv
        rcases List.mem_cons.mp hq with h1 | h2
        · subst h1; exact le_trans (hl hqv) hmono
        · exact hbound q h2 hqv
      · rcases hcase with ⟨heq, hall⟩ | ⟨pre, l2, post, hsplit, hv2, hs2, hleaf2, hlt2, hpre2⟩
        · refine Or.inl ⟨heq, ?_⟩
          intro q hq hqv
          rcases List.mem_cons.mp hq with h1 | h2
          · subst h1; exact hl hqv
          · exact hall q h2 hqv
        · refine Or.inr ⟨l :: pre, l2, post, by rw [hsplit]; rfl, hv2, hs2, hleaf2, hlt2, ?_⟩
          intro q hq hqv
          rcases List.mem_cons.mp hq with h1 | h2
          · subst h1; exact lt_of_le_of_lt (hl hqv) hlt2
          · exact hpre2 q h2 hqv

theorem findSweepClosure_of_root (lib : Lib) (congestionTree : CongestionTree) (root : Node)
    (tx : Packet) (input0 : PInput) (others : List PInput)
    (hroot : lib.Root congestionTree = .ok root)
    (hparse : lib.NewFromRawBytes root.Tx = .ok tx)
    (hin : tx.Inputs = input0 :: others) :
    findSweepClosure lib congestionTree =
      match findSweepClosureLoop lib input0.TaprootLeafScript 0 none with
      | (_, none) => .error .sweepClosureNotFound
      | (seconds, some sweepClosure) => .ok (sweepClosure, seconds) := by
  unfold findSweepClosure
  simp only [hroot, hparse, hin]

theorem findSweepClosure_ok_inv (lib : Lib) (congestionTree : CongestionTree)
    (leaf : TapLeaf) (seconds : Nat)
    (h : findSweepClosure lib congestionTree = .ok (leaf, seconds)) :
    ∃ root tx input0 others, lib.Root congestionTree = .ok root ∧
      lib.NewFromRawBytes root.Tx = .ok tx ∧ tx.Inputs = input0 :: others ∧
      findSweepClosureLoop lib input0.TaprootLeafScript 0 none = (seconds, some leaf) := by
  unfold findSweepClosure at h
  cases hroot : lib.Root congestionTree with
  | error e => rw [hroot] at h; simp at h
  | ok root =>
    rw [hroot] at h
    simp only at h
    cases hparse : lib.NewFromRawBytes root.Tx with
    | error e => rw [hparse] at h; simp at h
    | ok tx =>
      rw [hparse] at h
      simp only at h
      cases hin : tx.Inputs with
      | nil => rw [hin] at h; simp at h
      | cons input0 others =>
        rw [hin] at h
        simp only at h
        refine ⟨root, tx, input0, others, rfl, hparse, hin, ?_⟩
        generalize findSweepClosureLoop lib input0.TaprootLeafScript 0 none = res at h
        obtain ⟨s, sc⟩ := res
        cases sc with
        | none => simp at h
        | some sweepClosure =>
          simp only [Except.ok.injEq, Prod.mk.injEq] at h
          rw [h.1, h.2]

/-- C7: when `findSweepClosure` succeeds, the seconds it returns are the
maximum of `Seconds` over the tap-leaves of the root's input 0 that decode as
a valid CSV-signature closure (it bounds them all and is attained), and the
returned tap-leaf is the base tap-leaf of the script of the first leaf, in
tap-leaf order, attaining that maximum. -/
theorem findSweepClosure_selects_max (lib : Lib) (congestionTree : CongestionTree)
    (leaf : TapLeaf) (seconds : Nat)
    (h : findSweepClosure lib congestionTree = .ok (leaf, seconds)) :
    ∃ root tx input0 others, lib.Root congestionTree = .ok root ∧
      lib.NewFromRawBytes root.Tx = .ok tx ∧ tx.Inputs = input0 :: others ∧
      (∀ l ∈ input0.TaprootLeafScript, validClosure lib l → closureSeconds lib l ≤ seconds) ∧
      ∃ pre l post, input0.TaprootLeafScript = pre ++ l :: post ∧
        validClosure lib l ∧ closureSeconds lib l = seconds ∧
        leaf = NewBaseTapLeaf l.Script ∧
        ∀ q ∈ pre, validClosure lib q → closureSeconds lib q < seconds := by
  obtain ⟨root, tx, input0, others, hroot, hparse, hin, hloop⟩ :=
    findSweepClosure_ok_inv lib congestionTree leaf seconds h
  obtain ⟨hbound, _, hcase⟩ := findSweepClosureLoop_spec lib input0.TaprootLeafScript 0 none
  rw [hloop] at hbound hcase
  refine ⟨root, tx, input0, others, hroot, hparse, hin, hbound, ?_⟩
  rcases hcase with ⟨heq, _⟩ | ⟨pre, l, post, hsplit, hv, hs, hleaf, _, hpre⟩
  · simp at heq
  · exact ⟨pre, l, post, hsplit, hv, hs, (Option.some.inj hleaf), hpre⟩

/-- Witness of C7: the root of the sample tree has six tap-leaves, of which
three decode as valid closures of 512, 1536 and 1024 seconds; the result is
1536 seconds with the script of the 1536-second leaf. -/
theorem findSweepClosure_selects_max_witness :
    findSweepClosure sampleLib sampleTree = .ok (NewBaseTapLeaf [3, 0xb2], 1536) ∧
    ∃ root tx input0 others, sampleLib.Root sampleTree = .ok root ∧
      sampleLib.NewFromRawBytes root.Tx = .ok tx ∧ tx.Inputs = input0 :: others ∧
      (∀ l ∈ input0.TaprootLeafScript, validClosure sampleLib l →
        closureSeconds sampleLib l ≤ 1536) ∧
      ∃ pre l post, input0.TaprootLeafScript = pre ++ l :: post ∧
        validClosure sampleLib l ∧ closureSeconds sampleLib l = 1536 ∧
        NewBaseTapLeaf [3, 0xb2] = NewBaseTapLeaf l.Script ∧
        ∀ q ∈ pre, validClosure sampleLib q → closureSeconds sampleLib q < 1536 :=
  ⟨by decide,
    findSweepClosure_selects_max sampleLib sampleTree (NewBaseTapLeaf [3, 0xb2]) 1536
      (by decide)⟩

/-- C8, as stated, fails: the root of `zeroSecondsTree` parses and its
tap-leaf with script `[0, 0xb2]` decodes as a valid closure of 0 seconds, yet
`findSweepClosure` returns the sweep-closure-not-found error. -/
theorem findSweepClosure_rejects_zero_seconds :
    sampleLib.Root zeroSecondsTree =
      .ok { Txid := "a1", Tx := "zero", ParentTxid := "pool", Leaf := true } ∧
    sampleLib.NewFromRawBytes "zero" = .ok (rootPacketOf [[9], [0, 0xb2]]) ∧
    (∃ l ∈ (rootPacketOf [[9], [0, 0xb2]]).Inputs.flatMap PInput.TaprootLeafScript,
      validClosure sampleLib l ∧ closureSeconds sampleLib l = 0) ∧
    findSweepClosure sampleLib zeroSecondsTree = .error .sweepClosureNotFound := by
  decide

/-- C8 amended: for a root that parses and has an input 0, `findSweepClosure`
fails with the sweep-closure-not-found error if and only if no tap-leaf of
that input decodes as a valid CSV-signature closure with `Seconds > 0`; when
some tap-leaf decodes as a valid closure with `Seconds > 0`, a closure is
selected and no error is returned. -/
theorem findSweepClosure_not_found_iff (lib : Lib) (congestionTree : CongestionTree)
    (root : Node) (tx : Packet) (input0 : PInput) (others : List PInput)
    (hroot : lib.Root congestionTree = .ok root)
    (hparse : lib.NewFromRawBytes root.Tx = .ok tx)
    (hin : tx.Inputs = input0 :: others) :
    (findSweepClosure lib congestionTree = .error .sweepClosureNotFound ↔
      ∀ l ∈ input0.TaprootLeafScript, ¬ (validClosure lib l ∧ 0 < closureSeconds lib l)) ∧
    ((∃ l ∈ input0.TaprootLeafScript, validClosure lib l ∧ 0 < closureSeconds lib l) →
      ∃ leaf seconds, findSweepClosure lib congestionTree = .ok (leaf, seconds)) := by
  rw [findSweepClosure_of_root lib congestionTree root tx input0 others hroot hparse hin]
  obtain ⟨hbound, _, hcase⟩ := findSweepClosureLoop_spec lib input0.TaprootLeafScript 0 none
  rcases hcase with ⟨heq, hall⟩ | ⟨pre, l, post, hsplit, hv, hs, hleaf, hlt, _⟩
  · rw [heq]
    refine ⟨⟨fun _ l hl hvl => ?_, fun _ => rfl⟩, fun hex => ?_⟩
    · have := hall l hl hvl.1
      omega
    · obtain ⟨l, hl, hvl, hpos⟩ := hex
      have := hall l hl hvl
      omega
  · have hmem : l ∈ input0.TaprootLeafScript := by
      rw [hsplit]; simp
    generalize findSweepClosureLoop lib input0.TaprootLeafScript 0 none = res at hs hleaf hlt
    obtain ⟨s, sc⟩ := res
    simp only at hs hleaf hlt
    subst hleaf
    refine ⟨⟨fun h => by simp at h, fun hnone => ?_⟩, fun _ => ⟨_, _, rfl⟩⟩
    exact absurd ⟨hv, by omega⟩ (hnone l hmem)

/-- Witness of the amended C8: the sample tree has a valid closure with
positive seconds and is accepted; the tree whose only valid closure has zero
seconds is rejected. -/
theorem findSweepClosure_not_found_iff_witness :
    (∃ leaf seconds, findSweepClosure sampleLib sampleTree = .ok (leaf, seconds)) ∧
    findSweepClosure sampleLib zeroSecondsTree = .error .sweepClosureNotFound :=
  ⟨(findSweepClosure_not_found_iff sampleLib sampleTree
      { Txid := "a1", Tx := "root", ParentTxid := "pool", Leaf := true }
      (rootPacketOf [[1, 0xb2], [], [3, 0xb2], [7], [3, 0xb2, 0], [2, 0xb2]])
      _ _ (by decide) (by decide) rfl).2
      ⟨{ ControlBlock := [], Script := [3, 0xb2], LeafVersion := BaseLeafVersion },
        by decide, by decide, by decide⟩,
    (findSweepClosure_not_found_iff sampleLib zeroSecondsTree
      { Txid := "a1", Tx := "zero", ParentTxid := "pool", Leaf := true }
      (rootPacketOf [[9], [0, 0xb2]]) _ _ (by decide) (by decide) rfl).1.2
      (by decide)⟩

end Covenantless

/-! ## Properties of `parseReceivers` -/

namespace Handlers

theorem utf8ByteSize_le_zero_iff (s : String) : s.utf8ByteSize ≤ 0 ↔ s = "" := by
  cases s with
  | mk cs =>
    cases cs with
    | nil => simp [String.utf8ByteSize, String.utf8ByteSize.go]
    | cons c cs =>
      simp only [String.utf8ByteSize, String.utf8ByteSize.go]
      have := Char.utf8Size_pos c
      constructor
      · intro h; omega
      · intro h
        have h2 : c :: cs = [] := congrArg String.data h
        simp at h2

theorem EncodeToString_SerializeCompressed_ne_empty (pk : PublicKey) :
    EncodeToString (SerializeCompressed pk) ≠ "" := by
  intro h
  have h2 := congrArg String.data h
  simp [EncodeToString, SerializeCompressed, hexByte] at h2

theorem parseReceiversLoop_cons_wellFormed (D : String → DecodedAddress) (out : Option Output)
    (rest : List (Option Output)) (acc : List Receiver) (h : wellFormed out) :
    parseReceiversLoop D (out :: rest) acc =
      parseReceiversLoop D rest (acc ++ [toReceiver D out]) := by
  obtain ⟨h1, h2⟩ := h
  have h3 : ¬ (GetAddress out).utf8ByteSize ≤ 0 := by
    rw [utf8ByteSize_le_zero_iff]; exact h2
  rw [parseReceiversLoop]
  simp only [h1, h3, if_false]

theorem parseReceiversLoop_cons_zero_amount (D : String → DecodedAddress) (out : Option Output)
    (rest : List (Option Output)) (acc : List Receiver) (h : GetAmount out = 0) :
    parseReceiversLoop D (out :: rest) acc = .error .missingOutputAmount := by
  rw [parseReceiversLoop]
  simp only [h, if_true]

theorem parseReceiversLoop_cons_empty_address (D : String → DecodedAddress)
    (out : Option Output) (rest : List (Option Output)) (acc : List Receiver)
    (h1 : GetAmount out ≠ 0) (h2 : GetAddress out = "") :
    parseReceiversLoop D (out :: rest) acc = .error .missingOutputAddress := by
  have h3 : (GetAddress out).utf8ByteSize ≤ 0 := by
    rw [utf8ByteSize_le_zero_iff]; exact h2
  rw [parseReceiversLoop]
  simp only [h1, h3, if_false, if_true]

theorem parseReceiversLoop_all_wellFormed (D : String → DecodedAddress) :
    ∀ (outs : List (Option Output)) (acc : List Receiver),
      (∀ o ∈ outs, wellFormed o) →
      parseReceiversLoop D outs acc = .ok (acc ++ outs.map (toReceiver D)) := by
  intro outs
  induction outs with
  | nil => intro acc _; simp [parseReceiversLoop]
  | cons out rest ih =>
    intro acc hall
    rw [parseReceiversLoop_cons_wellFormed D out rest acc (hall out (List.mem_cons_self _ _)),
      ih _ (fun o ho => hall o (List.mem_cons_of_mem _ ho))]
    simp

theorem parseReceiversLoop_first_bad (D : String → DecodedAddress) :
    ∀ (pre : List (Option Output)) (out : Option Output) (post : List (Option Output))
      (acc : List Receiver), (∀ o ∈ pre, wellFormed o) →
      (GetAmount out = 0 →
        parseReceiversLoop D (pre ++ out :: post) acc = .error .missingOutputAmount) ∧
      (GetAmount out ≠ 0 → GetAddress out = "" →
        parseReceiversLoop D (pre ++ out :: post) acc = .error .missingOutputAddress) := by
  intro pre
  induction pre with
  | nil =>
    intro out post acc _
    exact ⟨parseReceiversLoop_cons_zero_amount D out post acc,
      parseReceiversLoop_cons_empty_address D out post acc⟩
  | cons o pre ih =>
    intro out post acc hpre
    rw [List.cons_append,
      parseReceiversLoop_cons_wellFormed D o _ acc (hpre o (List.mem_cons_self _ _))]
    exact ih out post _ (fun o1 ho1 => hpre o1 (List.mem_cons_of_mem _ ho1))

theorem wellFormed_or_first_bad :
    ∀ (outs : List (Option Output)),
      (∀ o ∈ outs, wellFormed o) ∨
      ∃ pre out post, outs = pre ++ out :: post ∧ (∀ o ∈ pre, wellFormed o) ∧
        ¬ wellFormed out := by
  intro outs
  induction outs with
  | nil => exact Or.inl (fun o ho => by simp at ho)
  | cons out rest ih =>
    by_cases h : wellFormed out
    · rcases ih with hall | ⟨pre, bad, post, hsplit, hpre, hbad⟩
      · refine Or.inl (fun o ho => ?_)
        rcases List.mem_cons.mp ho with h1 | h2
        · subst h1; exact h
        · exact hall o h2
      · refine Or.inr ⟨out :: pre, bad, post, by rw [hsplit]; rfl, ?_, hbad⟩
        intro o ho
        rcases List.mem_cons.mp ho with h1 | h2
        · subst h1; exact h
        · exact hpre o h2
    · exact Or.inr ⟨[], out, rest, rfl, fun o ho => by simp at ho, h⟩

theorem parseReceiversLoop_error_of_bad (D : String → DecodedAddress)
    (pre : List (Option Output)) (out : Option Output) (post : List (Option Output))
    (acc : List Receiver) (hpre : ∀ o ∈ pre, wellFormed o) (hbad : ¬ wellFormed out) :
    ∃ e, parseReceiversLoop D (pre ++ out :: post) acc = .error e := by
  obtain ⟨h1, h2⟩ := parseReceiversLoop_first_bad D pre out post acc hpre
  by_cases ha : GetAmount out = 0
  · exact ⟨_, h1 ha⟩
  · have hb : GetAddress out = "" := by
      by_contra hb
      exact hbad ⟨ha, hb⟩
    exact ⟨_, h2 ha hb⟩

theorem toReceiver_spec (D : String → DecodedAddress) (out : Option Output)
    (hkey : ∀ a, (D a).userKey ≠ none ↔ (D a).err = none) (hw : wellFormed out) :
    (toReceiver D out).Amount = GetAmount out ∧ (toReceiver D out).Amount ≠ 0 ∧
    ((D (GetAddress out)).err = none →
      ∃ pk, (D (GetAddress out)).userKey = some pk ∧
        (toReceiver D out).Pubkey = EncodeToString (SerializeCompressed pk) ∧
        (toReceiver D out).OnchainAddress = "") ∧
    ((D (GetAddress out)).err ≠ none →
      (toReceiver D out).OnchainAddress = GetAddress out ∧ (toReceiver D out).Pubkey = "") ∧
    (((toReceiver D out).Pubkey ≠ "" ∧ (toReceiver D out).OnchainAddress = "") ∨
      ((toReceiver D out).Pubkey = "" ∧ (toReceiver D out).OnchainAddress ≠ "")) := by
  obtain ⟨hamount, haddr⟩ := hw
  have hk := hkey (GetAddress out)
  cases herr : (D (GetAddress out)).err with
  | none =>
    rw [herr] at hk
    cases hpk : (D (GetAddress out)).userKey with
    | none => rw [hpk] at hk; exact absurd rfl (hk.mpr rfl)
    | some pk =>
      have hP : (toReceiver D out).Pubkey = EncodeToString (SerializeCompressed pk) := by
        simp only [toReceiver, hpk]
      have hA : (toReceiver D out).OnchainAddress = "" := by
        simp [toReceiver, herr]
      refine ⟨rfl, hamount, fun _ => ⟨pk, rfl, hP, hA⟩, fun h => absurd rfl h, Or.inl ⟨?_, hA⟩⟩
      rw [hP]
      exact EncodeToString_SerializeCompressed_ne_empty pk
  | some e =>
    rw [herr] at hk
    cases hpk : (D (GetAddress out)).userKey with
    | some pk =>
      rw [hpk] at hk
      have := hk.mp (by simp)
      simp at this
    | none =>
      have hP : (toReceiver D out).Pubkey = "" := by
        simp only [toReceiver, hpk]
      have hA : (toReceiver D out).OnchainAddress = GetAddress out := by
        simp [toReceiver, herr]
      refine ⟨rfl, hamount, fun h => by simp at h, fun _ => ⟨hA, hP⟩, Or.inr ⟨hP, ?_⟩⟩
      rw [hA]
      exact haddr

theorem forall₂_map_of_forall {α β : Type} (R : α → β → Prop) (f : α → β) :
    ∀ (l : List α), (∀ a ∈ l, R a (f a)) → List.Forall₂ R l (l.map f) := by
  intro l
  induction l with
  | nil => intro _; exact List.Forall₂.nil
  | cons a l ih =>
    intro h
    exact List.Forall₂.cons (h a (List.mem_cons_self _ _))
      (ih (fun b hb => h b (List.mem_cons_of_mem _ hb)))

/-- C9: assuming `DecodeAddress` returns a non-nil public key exactly when
it returns no error: when `parseReceivers` succeeds the result has one
receiver per output, in order, with the output's non-zero amount and exactly
one of `Pubkey` / `OnchainAddress` non-empty (the hex of the compressed key
returned second when the address decodes, the raw address when it does not);
it fails exactly when some output has amount 0 or an empty address, with the
error of the first such output (the amount being checked first). -/
theorem parseReceivers_spec (D : String → DecodedAddress) (outs : List (Option Output))
    (hkey : ∀ a, (D a).userKey ≠ none ↔ (D a).err = none) :
    (∀ rs, parseReceivers D outs = .ok rs →
      List.Forall₂ (fun out r =>
        r.Amount = GetAmount out ∧ r.Amount ≠ 0 ∧
        ((D (GetAddress out)).err = none →
          ∃ pk, (D (GetAddress out)).userKey = some pk ∧
            r.Pubkey = EncodeToString (SerializeCompressed pk) ∧ r.OnchainAddress = "") ∧
        ((D (GetAddress out)).err ≠ none →
          r.OnchainAddress = GetAddress out ∧ r.Pubkey = "") ∧
        ((r.Pubkey ≠ "" ∧ r.OnchainAddress = "") ∨ (r.Pubkey = "" ∧ r.OnchainAddress ≠ "")))
        outs rs) ∧
    ((∃ e, parseReceivers D outs = .error e) ↔
      ∃ out ∈ outs, GetAmount out = 0 ∨ GetAddress out = "") ∧
    (∀ pre out post, outs = pre ++ out :: post → (∀ o ∈ pre, wellFormed o) →
      (GetAmount out = 0 → parseReceivers D outs = .error .missingOutputAmount) ∧
      (GetAmount out ≠ 0 → GetAddress out = "" →
        parseReceivers D outs = .error .missingOutputAddress)) := by
  unfold parseReceivers
  refine ⟨?_, ?_, ?_⟩
  · intro rs hrs
    rcases wellFormed_or_first_bad outs with hall | ⟨pre, bad, post, hsplit, hpre, hbad⟩
    · rw [parseReceiversLoop_all_wellFormed D outs [] hall] at hrs
      have hrs2 : rs = outs.map (toReceiver D) := by
        simpa using (Except.ok.inj hrs).symm
      rw [hrs2]
      exact forall₂_map_of_forall _ _ outs (fun o ho => toReceiver_spec D o hkey (hall o ho))
    · obtain ⟨e, he⟩ := parseReceiversLoop_error_of_bad D pre bad post [] hpre hbad
      rw [hsplit, he] at hrs
      simp at hrs
  · constructor
    · intro hfail
      obtain ⟨e, he⟩ := hfail
      rcases wellFormed_or_first_bad outs with hall | ⟨pre, bad, post, hsplit, _, hbad⟩
      · rw [parseReceiversLoop_all_wellFormed D outs [] hall] at he
        simp at he
      · refine ⟨bad, by rw [hsplit]; simp, ?_⟩
        unfold wellFormed at hbad
        by_cases ha : GetAmount bad = 0
        · exact Or.inl ha
        · exact Or.inr (by
            by_contra hb
            exact hbad ⟨ha, hb⟩)
    · intro hbad
      obtain ⟨out, hmem, hout⟩ := hbad
      rcases wellFormed_or_first_bad outs with hall | ⟨pre, bad, post, hsplit, hpre, hnot⟩
      · have hw := hall out hmem
        rcases hout with h1 | h2
        · exact absurd h1 hw.1
        · exact absurd h2 hw.2
      · rw [hsplit]
        exact parseReceiversLoop_error_of_bad D pre bad post [] hpre hnot
  · intro pre out post hsplit hpre
    rw [hsplit]
    exact parseReceiversLoop_first_bad D pre out post [] hpre

theorem sampleDecodeAddress_key_iff (a : String) :
    (sampleDecodeAddress a).userKey ≠ none ↔ (sampleDecodeAddress a).err = none := by
  unfold sampleDecodeAddress
  split <;> simp

/-- Witness of C9: the two sample outputs give, in order, a receiver with a
public key only and a receiver with an on-chain address only. -/
theorem parseReceivers_spec_witness :
    parseReceivers sampleDecodeAddress sampleOutputs = .ok sampleReceivers ∧
    List.Forall₂ (fun out r =>
        r.Amount = GetAmount out ∧ r.Amount ≠ 0 ∧
        ((sampleDecodeAddress (GetAddress out)).err = none →
          ∃ pk, (sampleDecodeAddress (GetAddress out)).userKey = some pk ∧
            r.Pubkey = EncodeToString (SerializeCompressed pk) ∧ r.OnchainAddress = "") ∧
        ((sampleDecodeAddress (GetAddress out)).err ≠ none →
          r.OnchainAddress = GetAddress out ∧ r.Pubkey = "") ∧
        ((r.Pubkey ≠ "" ∧ r.OnchainAddress = "") ∨ (r.Pubkey = "" ∧ r.OnchainAddress ≠ "")))
      sampleOutputs sampleReceivers :=
  ⟨by decide,
    (parseReceivers_spec sampleDecodeAddress sampleOutputs sampleDecodeAddress_key_iff).1
      sampleReceivers (by decide)⟩

end Handlers

/-! ## Properties of `toRoundStage` -/

namespace Handlers

theorem toRoundStage_of_failed (domain : StageCodes) (stage : Stage)
    (hf : stage.Failed = true) : toRoundStage domain stage = .ROUND_STAGE_FAILED := by
  unfold toRoundStage
  simp only [hf, if_true]

theorem toRoundStage_of_registration (domain : StageCodes) (stage : Stage)
    (hf : stage.Failed = false) (hc : stage.Code = domain.RegistrationStage) :
    toRoundStage domain stage = .ROUND_STAGE_REGISTRATION := by
  unfold toRoundStage
  simp only [hf, hc, Bool.false_eq_true, if_false, if_true]

theorem toRoundStage_of_finalization (domain : StageCodes)
    (hne : domain.RegistrationStage ≠ domain.FinalizationStage) (stage : Stage)
    (hf : stage.Failed = false) (hc : stage.Code = domain.FinalizationStage) :
    toRoundStage domain stage =
      if stage.Ended then .ROUND_STAGE_FINALIZED else .ROUND_STAGE_FINALIZATION := by
  have hne2 : ¬ domain.FinalizationStage = domain.RegistrationStage := fun h => hne h.symm
  unfold toRoundStage
  simp only [hf, hc, hne2, Bool.false_eq_true, if_false, if_true]

theorem toRoundStage_of_other (domain : StageCodes) (stage : Stage)
    (hf : stage.Failed = false) (hr : stage.Code ≠ domain.RegistrationStage)
    (hc : stage.Code ≠ domain.FinalizationStage) :
    toRoundStage domain stage = .ROUND_STAGE_UNSPECIFIED := by
  unfold toRoundStage
  simp only [hf, hr, hc, Bool.false_eq_true, if_false]

theorem toRoundStage_finalized_iff (domain : StageCodes)
    (hne : domain.RegistrationStage ≠ domain.FinalizationStage) (stage : Stage) :
    toRoundStage domain stage = .ROUND_STAGE_FINALIZED ↔
      stage.Failed = false ∧ stage.Code = domain.FinalizationStage ∧ stage.Ended = true := by
  constructor
  · intro h
    cases hf : stage.Failed with
    | true => rw [toRoundStage_of_failed domain stage hf] at h; cases h
    | false =>
      by_cases hr : stage.Code = domain.RegistrationStage
      · rw [toRoundStage_of_registration domain stage hf hr] at h; cases h
      · by_cases hc : stage.Code = domain.FinalizationStage
        · rw [toRoundStage_of_finalization domain hne stage hf hc] at h
          cases he : stage.Ended with
          | true => exact ⟨rfl, hc, rfl⟩
          | false => rw [he] at h; simp at h
        · rw [toRoundStage_of_other domain stage hf hr hc] at h; cases h
  · intro h
    obtain ⟨hf, hc, he⟩ := h
    rw [toRoundStage_of_finalization domain hne stage hf hc, he]
    rfl

theorem toRoundStage_onto (domain : StageCodes)
    (hne : domain.RegistrationStage ≠ domain.FinalizationStage) (out : RoundStage) :
    ∃ stage, toRoundStage domain stage = out := by
  cases out with
  | ROUND_STAGE_UNSPECIFIED =>
    refine ⟨{ Code := max domain.RegistrationStage domain.FinalizationStage + 1,
              Ended := false, Failed := false }, ?_⟩
    apply toRoundStage_of_other domain _ rfl
    · simp only [ne_eq]; omega
    · simp only [ne_eq]; omega
  | ROUND_STAGE_REGISTRATION =>
    exact ⟨{ Code := domain.RegistrationStage, Ended := false, Failed := false },
      toRoundStage_of_registration domain _ rfl rfl⟩
  | ROUND_STAGE_FINALIZATION =>
    exact ⟨{ Code := domain.FinalizationStage, Ended := false, Failed := false },
      toRoundStage_of_finalization domain hne _ rfl rfl⟩
  | ROUND_STAGE_FINALIZED =>
    exact ⟨{ Code := domain.FinalizationStage, Ended := true, Failed := false },
      toRoundStage_of_finalization domain hne _ rfl rfl⟩
  | ROUND_STAGE_FAILED =>
    exact ⟨{ Code := domain.RegistrationStage, Ended := false, Failed := true },
      toRoundStage_of_failed domain _ rfl⟩

/-- C11: `toRoundStage` maps every domain stage to one of the five visible
stages and reaches each of them: a failed stage maps to FAILED whatever its
code and `Ended` flag; otherwise Registration maps to REGISTRATION whether or
not ended, Finalization maps to FINALIZED when ended and to FINALIZATION when
not, and any other code maps to UNSPECIFIED.  Hence the result is FINALIZED
if and only if the stage is not failed, has code Finalization and is ended. -/
theorem toRoundStage_total_mapping (domain : StageCodes)
    (hne : domain.RegistrationStage ≠ domain.FinalizationStage) (stage : Stage) :
    (stage.Failed = true → toRoundStage domain stage = .ROUND_STAGE_FAILED) ∧
    (stage.Failed = false → stage.Code = domain.RegistrationStage →
      toRoundStage domain stage = .ROUND_STAGE_REGISTRATION) ∧
    (stage.Failed = false → stage.Code = domain.FinalizationStage → stage.Ended = true →
      toRoundStage domain stage = .ROUND_STAGE_FINALIZED) ∧
    (stage.Failed = false → stage.Code = domain.FinalizationStage → stage.Ended = false →
      toRoundStage domain stage = .ROUND_STAGE_FINALIZATION) ∧
    (stage.Failed = false → stage.Code ≠ domain.RegistrationStage →
      stage.Code ≠ domain.FinalizationStage →
      toRoundStage domain stage = .ROUND_STAGE_UNSPECIFIED) ∧
    (toRoundStage domain stage = .ROUND_STAGE_FINALIZED ↔
      stage.Failed = false ∧ stage.Code = domain.FinalizationStage ∧ stage.Ended = true) ∧
    (∀ out : RoundStage, ∃ st, toRoundStage domain st = out) := by
  refine ⟨toRoundStage_of_failed domain stage, toRoundStage_of_registration domain stage,
    ?_, ?_, toRoundStage_of_other domain stage, toRoundStage_finalized_iff domain hne stage,
    toRoundStage_onto domain hne⟩
  · intro hf hc he
    rw [toRoundStage_of_finalization domain hne stage hf hc, he]
    rfl
  · intro hf hc he
    rw [toRoundStage_of_finalization domain hne stage hf hc, he]
    simp

/-- Witness of C11: an ended, not failed Finalization stage maps to FINALIZED,
and a failed one to FAILED. -/
theorem toRoundStage_total_mapping_witness :
    sampleStageCodes.RegistrationStage ≠ sampleStageCodes.FinalizationStage ∧
    toRoundStage sampleStageCodes { Code := 2, Ended := true, Failed := false } =
      .ROUND_STAGE_FINALIZED ∧
    toRoundStage sampleStageCodes { Code := 2, Ended := true, Failed := true } =
      .ROUND_STAGE_FAILED :=
  ⟨by decide,
    (toRoundStage_total_mapping sampleStageCodes (by decide)
      { Code := 2, Ended := true, Failed := false }).2.2.1 rfl rfl rfl,
    (toRoundStage_total_mapping sampleStageCodes (by decide)
      { Code := 2, Ended := true, Failed := true }).1 rfl⟩

end Handlers

/-! ## Properties of `getFeeRate` -/

namespace BtcWallet

/-- C12, as stated, fails: when the fee endpoint answers 404, `getFeeRate`
returns the amount 0 with the HTTP error carrying the status line, not the
default 2 with no error. -/
theorem getFeeRate_not_default_on_404 :
    notFoundResponse.StatusCode ≠ 200 ∧
    getFeeRate (httpAnswering notFoundResponse) sampleClient =
      (0, some (FeeRateError.httpError "404 Not Found")) ∧
    getFeeRate (httpAnswering notFoundResponse) sampleClient ≠ (2, none) := by
  decide

/-- C12 amended: when the fee endpoint is reached, a response whose status
is not 200 makes `getFeeRate` return the amount 0 and the
"fee-estimates endpoint HTTP error" error carrying the status line; the
default 2 with no error is returned when the status is 200 and the decoded
body is the empty map. -/
theorem getFeeRate_http_error_on_non200 {F : Type} (http : Http F) (f : esploraClient)
    (endpoint : String) (resp : Response F)
    (hjoin : http.JoinPath f.url "fee-estimates" = .ok endpoint)
    (hget : http.Get endpoint = .ok resp) :
    (resp.StatusCode ≠ 200 →
      getFeeRate http f = (0, some (FeeRateError.httpError resp.Status))) ∧
    (resp.StatusCode = 200 → resp.decoded = .ok [] → getFeeRate http f = (2, none)) := by
  constructor
  · intro hst
    have h : resp.StatusCode ≠ StatusOK := hst
    unfold getFeeRate
    simp only [hjoin, hget, h, ne_eq, not_false_eq_true, if_true]
  · intro hst hbody
    have h : ¬ resp.StatusCode ≠ StatusOK := fun hn => hn hst
    unfold getFeeRate
    simp only [hjoin, hget, h, hbody, if_false, List.length_nil, if_true]

/-- Witness of the amended C12: the answer 404 gives the HTTP error and the
answer 200 with an empty object gives the default 2. -/
theorem getFeeRate_http_error_on_non200_witness :
    getFeeRate (httpAnswering notFoundResponse) sampleClient =
      (0, some (FeeRateError.httpError "404 Not Found")) ∧
    getFeeRate (httpAnswering emptyResponse) sampleClient = (2, none) :=
  ⟨(getFeeRate_http_error_on_non200 (httpAnswering notFoundResponse) sampleClient
      "http://localhost:3000/fee-estimates" notFoundResponse (by decide) (by decide)).1
      (by decide),
    (getFeeRate_http_error_on_non200 (httpAnswering emptyResponse) sampleClient
      "http://localhost:3000/fee-estimates" emptyResponse (by decide) (by decide)).2
      (by decide) rfl⟩

end BtcWallet

end Ark
